import Mathlib

/-!
Shallow embedding of `game_of_life.py` (class `GameOfLife`) and of the
stability-tracking portion of `server.py` (`run_game_loop`).

Conventions of the embedding:
* Grid cells are `Int`: `0` is `INTERNAL_DEAD`, `-1` is `INTERNAL_LIVE`,
  and any positive integer is a player id (the owner of the cell).
* The grid is a `List (List Int)` in row-major order, read with a
  defaulting accessor `iget` (out-of-range reads give `0`; the Python
  code only ever reads and writes in range, after taking indices
  modulo the dimensions).
* Python's `%` on `int` with a positive modulus agrees with `Int.emod`
  (both return a representative in `[0, m)`), which is Lean's `%` on
  `Int`; coordinates are computed in `Int` and converted back to `Nat`.
* `random.randint(a, b)` is modelled by an explicit oracle tape of
  naturals: each call consumes one tape entry `n` and returns
  `a + n % (b - a + 1)`, which ranges over exactly `[a, b]` when
  `a ≤ b` (for `a > b` CPython raises; the model returns `a`, a case
  the theorems below never rely on).
* The Python player dictionary `self.players` is an insertion-ordered
  association list `List (Int × Player)`; `dictSet` replaces in place
  (keeping the position, as CPython dicts do) or appends, `dictModify`
  updates the value under an existing key, `dictDel` deletes.
  Dictionary keys that the code may leave absent (`generations_in_lead`,
  `wins`, `moving`, `move_direction`, `pos`, `last_respawn_time`) are
  `Option` fields read with the same defaults as the Python `.get` calls.
* Wall-clock readings (`time.time()` / loop time) are passed in as an
  integer parameter `now` (the float clock is abstracted to an exact
  ordered time scale; the code only subtracts and compares times).
* `next_generation` returns `Option`: `none` models the `ValueError`
  raised by `max` on an empty sequence at the round boundary.
-/

/-- `INTERNAL_DEAD = 0` from the source. -/
def INTERNAL_DEAD : Int := 0

/-- `INTERNAL_LIVE = -1` from the source. -/
def INTERNAL_LIVE : Int := -1

/-- `RESPAWN_COOLDOWN = 15` (seconds) from the source. -/
def RESPAWN_COOLDOWN : Int := 15

/-- `PLAYER_SPAWN_PATTERN` (glider) from the source. -/
def PLAYER_SPAWN_PATTERN : List (Nat × Nat) := [(0, 1), (1, 2), (2, 0), (2, 1), (2, 2)]

/-- `PATTERN_WIDTH = 3` from the source. -/
def PATTERN_WIDTH : Nat := 3

/-- `PATTERN_HEIGHT = 3` from the source. -/
def PATTERN_HEIGHT : Nat := 3

/-- `STANDARD_PATTERNS["block"]`. -/
def pattern_block : List (Nat × Nat) := [(0, 0), (0, 1), (1, 0), (1, 1)]

/-- `STANDARD_PATTERNS["blinker_h"]`. -/
def pattern_blinker_h : List (Nat × Nat) := [(0, 0), (0, 1), (0, 2)]

/-- `STANDARD_PATTERNS["lwss"]`. -/
def pattern_lwss : List (Nat × Nat) :=
  [(0, 1), (0, 4), (1, 0), (2, 0), (2, 4), (3, 0), (3, 1), (3, 2), (3, 3)]

/-- `STANDARD_PATTERNS["glider"]`. -/
def pattern_glider : List (Nat × Nat) := [(0, 1), (1, 2), (2, 0), (2, 1), (2, 2)]

/-- `STANDARD_PATTERNS["beacon"]`. -/
def pattern_beacon : List (Nat × Nat) :=
  [(0, 0), (0, 1), (1, 0), (1, 1), (2, 2), (2, 3), (3, 2), (3, 3)]

/-- `STANDARD_PATTERNS["toad"]`. -/
def pattern_toad : List (Nat × Nat) := [(0, 1), (0, 2), (0, 3), (1, 0), (1, 1), (1, 2)]

/-- Defaulting 2-D read of the grid: `grid[r][c]`, with `0` when out of
range (the source only reads in range). -/
def iget (grid : List (List Int)) (r c : Nat) : Int :=
  ((grid.getD r []).getD c 0)

/-- 2-D write `grid[r][c] = v` (no-op out of range; the source only
writes in range). -/
def gridSet (grid : List (List Int)) (r c : Nat) (v : Int) : List (List Int) :=
  grid.set r ((grid.getD r []).set c v)

/-- Toroidal wrapping `x % m` as used on coordinates: Python `%` with a
positive modulus, i.e. `Int.emod`, landing in `[0, m)` for `m > 0`. -/
def wrap (x : Int) (m : Nat) : Nat :=
  (x % (m : Int)).toNat

/-- Oracle tape standing in for the `random` module: a list of naturals
consumed one per `randint` call (exhausted tape yields `0`). -/
structure Oracle where
  tape : List Nat
deriving DecidableEq, Repr

/-- Pop the next natural off the oracle tape. -/
def Oracle.next (o : Oracle) : Nat × Oracle :=
  match o.tape with
  | [] => (0, ⟨[]⟩)
  | n :: t => (n, ⟨t⟩)

/-- `random.randint(a, b)`: consumes one tape entry `n` and returns
`a + n % (b - a + 1)`, exactly the interval `[a, b]` when `a ≤ b`.
(CPython raises for `a > b`; the model then returns `a`, unused below.) -/
def randint (a b : Int) (o : Oracle) : Int × Oracle :=
  let (n, o') := o.next
  if b < a then (a, o') else (a + (n : Int) % (b - a + 1), o')

/-- One entry of `self.players`: the per-player dictionary.  Fields the
source reads through `.get`/`in` checks (so possibly absent keys) are
`Option`s. -/
structure Player where
  pos : Option (Nat × Nat)
  last_respawn_time : Option Int
  respawn_count : Option Nat
  wins : Option Nat
  generations_in_lead : Option Nat
  moving : Option Bool
  move_direction : Option (Int × Int)
deriving DecidableEq, Repr

/-- The whole-game state of a `GameOfLife` object.  `auto_reset` models
the transient `_auto_reset` attribute (`hasattr` check). -/
structure Game where
  width : Nat
  height : Nat
  grid : List (List Int)
  players : List (Int × Player)
  generation_count : Nat
  auto_reset : Bool
deriving DecidableEq, Repr

/-- Dictionary lookup `d[k]` / `d.get(k)`. -/
def dictGet (ps : List (Int × Player)) (k : Int) : Option Player :=
  (ps.find? (fun p => p.1 = k)).map Prod.snd

/-- Key-membership test `k in d`. -/
def dictMem (ps : List (Int × Player)) (k : Int) : Bool :=
  ps.any (fun p => p.1 = k)

/-- Dictionary assignment `d[k] = v`: replaces in place when the key is
present (CPython keeps the insertion position), otherwise appends. -/
def dictSet (ps : List (Int × Player)) (k : Int) (v : Player) : List (Int × Player) :=
  if dictMem ps k then ps.map (fun p => if p.1 = k then (k, v) else p)
  else ps ++ [(k, v)]

/-- In-place update of the value under key `k` (models statements like
`d[k]["field"] = v` on a key known to be present). -/
def dictModify (ps : List (Int × Player)) (k : Int) (f : Player → Player) :
    List (Int × Player) :=
  ps.map (fun p => if p.1 = k then (p.1, f p.2) else p)

/-- Dictionary deletion `del d[k]`. -/
def dictDel (ps : List (Int × Player)) (k : Int) : List (Int × Player) :=
  ps.filter (fun p => ¬ p.1 = k)

/-- The key list `list(d.keys())` in iteration (= insertion) order. -/
def dictKeys (ps : List (Int × Player)) : List Int :=
  ps.map Prod.fst

/-- `GameOfLife._is_valid(r, c)`. -/
def is_valid (g : Game) (r c : Nat) : Bool :=
  r < g.height && c < g.width

/-- `GameOfLife._is_area_clear(start_r, start_c, pattern_coords)`. -/
def is_area_clear (g : Game) (start_r start_c : Nat) (coords : List (Nat × Nat)) : Bool :=
  coords.all (fun dc =>
    let r := (start_r + dc.1) % g.height
    let c := (start_c + dc.2) % g.width
    is_valid g r c && iget g.grid r c = INTERNAL_DEAD)

/-- `GameOfLife._place_pattern(start_r, start_c, pattern_coords, state)`. -/
def place_pattern (g : Game) (start_r start_c : Nat) (coords : List (Nat × Nat))
    (state : Int) : Game :=
  { g with grid := coords.foldl (fun gr dc =>
      let r := (start_r + dc.1) % g.height
      let c := (start_c + dc.2) % g.width
      if is_valid g r c then gridSet gr r c state else gr) g.grid }

/-- The `(i, j)` offsets visited by `_get_neighbors_state`'s nested
loops, in loop order, with `(0, 0)` skipped. -/
def neighbor_offsets : List (Int × Int) :=
  [(-1, -1), (-1, 0), (-1, 1), (0, -1), (0, 1), (1, -1), (1, 0), (1, 1)]

/-- Python `set.add`, specialised to the dedup-list model of
`neighbor_player_ids` (append when new; the element is only ever
extracted when the set is a singleton, so the order convention is
immaterial to the code's behaviour). -/
def addId (l : List Int) (x : Int) : List Int :=
  if x ∈ l then l else l ++ [x]

/-- The grid values at the 8 toroidally wrapped neighbours of `(r, c)`,
in the visiting order of `_get_neighbors_state`. -/
def neighbor_vals (g : Game) (r c : Nat) : List Int :=
  neighbor_offsets.map (fun ij =>
    iget g.grid (wrap ((r : Int) + ij.1) g.height) (wrap ((c : Int) + ij.2) g.width))

/-- Classification of one neighbour value inside `_get_neighbors_state`:
counts as live when `== INTERNAL_LIVE` or `> 0`. -/
def is_live_val (v : Int) : Bool :=
  v = INTERNAL_LIVE || 0 < v

/-- Loop body of `_get_neighbors_state` for one `(i, j)` offset:
bump the live count for a standard live or player neighbour, and
collect the id of a player neighbour. -/
def gns_step (g : Game) (r c : Nat) (acc : Nat × List Int) (ij : Int × Int) :
    Nat × List Int :=
  let nr := wrap ((r : Int) + ij.1) g.height
  let nc := wrap ((c : Int) + ij.2) g.width
  let v := iget g.grid nr nc
  if v = INTERNAL_LIVE then (acc.1 + 1, acc.2)
  else if 0 < v then (acc.1 + 1, addId acc.2 v)
  else acc

/-- `GameOfLife._get_neighbors_state(r, c)`: the live-neighbour count and
the set (dedup list) of player ids among the live neighbours. -/
def get_neighbors_state (g : Game) (r c : Nat) : Nat × List Int :=
  neighbor_offsets.foldl (gns_step g r c) (0, [])

/-- The branch of the `if should_be_alive:` block of `next_generation`
taken for a given cell, mirroring the source's conditions verbatim:
`influence` is `new_grid[r][c] = influencing_pid`; `ghostSurvive` is the
`elif current_state > 0 and influencing_pid != current_state` arm (a
`pass`); `selfKeep` is the implicit fall-through of that `if`/`elif`
(also leaves the copied old value); `standardBirth` is
`new_grid[r][c] = INTERNAL_LIVE`; `liveKeep` is the `else` arm that
leaves a live cell's copied value; `death` is `new_grid[r][c] =
INTERNAL_DEAD`. -/
inductive Branch
  | influence | ghostSurvive | selfKeep | standardBirth | liveKeep | death
deriving DecidableEq, Repr

/-- Which branch `next_generation`'s per-cell block takes at `(r, c)`,
with the source's guard expressions. -/
def cell_branch (g : Game) (r c : Nat) : Branch :=
  let current_state := iget g.grid r c
  let ns := get_neighbors_state g r c
  let live_neighbors_count := ns.1
  let neighbor_player_ids := ns.2
  let is_currently_live := current_state = INTERNAL_LIVE || 0 < current_state
  let should_be_alive :=
    if is_currently_live then 2 ≤ live_neighbors_count && live_neighbors_count ≤ 3
    else live_neighbors_count = 3
  if should_be_alive then
    if neighbor_player_ids.length = 1 && 0 < live_neighbors_count then
      let influencing_pid := neighbor_player_ids.headD 0
      if influencing_pid ≠ current_state then Branch.influence
      else if 0 < current_state && influencing_pid ≠ current_state then Branch.ghostSurvive
      else Branch.selfKeep
    else
      if is_currently_live then Branch.liveKeep else Branch.standardBirth
  else Branch.death

/-- The grid value each branch leaves in `new_grid[r][c]` (the branches
that assign nothing leave the copied old value). -/
def branch_value (g : Game) (r c : Nat) : Branch → Int
  | Branch.influence => (get_neighbors_state g r c).2.headD 0
  | Branch.ghostSurvive => iget g.grid r c
  | Branch.selfKeep => iget g.grid r c
  | Branch.standardBirth => INTERNAL_LIVE
  | Branch.liveKeep => iget g.grid r c
  | Branch.death => INTERNAL_DEAD

/-- The value `next_generation` computes for cell `(r, c)` of the new
grid. -/
def next_cell (g : Game) (r c : Nat) : Int :=
  branch_value g r c (cell_branch g r c)

/-- The double-buffered whole-grid update of `next_generation` (the new
grid, before it is swapped in). -/
def step_grid (g : Game) : List (List Int) :=
  (List.range g.height).map (fun r => (List.range g.width).map (fun c => next_cell g r c))

/-- `GameOfLife.get_player_cell_count(player_id)`. -/
def get_player_cell_count (g : Game) (player_id : Int) : Nat :=
  (List.range g.height).foldl (fun acc r =>
    (List.range g.width).foldl (fun acc2 c =>
      if iget g.grid r c = player_id then acc2 + 1 else acc2) acc) 0

/-- `GameOfLife.get_live_cell_count()`. -/
def get_live_cell_count (g : Game) : Nat :=
  (List.range g.height).foldl (fun acc r =>
    (List.range g.width).foldl (fun acc2 c =>
      if iget g.grid r c ≠ INTERNAL_DEAD then acc2 + 1 else acc2) acc) 0

/-- The leader scan at the top of `next_generation`: first player (in
dictionary order) whose cell count strictly exceeds all earlier ones,
starting from `max_cells = 0`. -/
def find_current_leader (g : Game) : Option Int :=
  (g.players.foldl (fun acc p =>
    let cell_count := get_player_cell_count g p.1
    if acc.1 < cell_count then (cell_count, some p.1) else acc)
    ((0 : Nat), (none : Option Int))).2

/-- `players[pid].get('generations_in_lead', 0)`. -/
def gilOf (p : Player) : Nat :=
  p.generations_in_lead.getD 0

/-- `max(self.players.items(), key=lambda x: x[1].get('generations_in_lead', 0))[0]`:
first item attaining the maximum, `none` on an empty dict (CPython
raises `ValueError` there). -/
def round_winner (ps : List (Int × Player)) : Option Int :=
  match ps with
  | [] => none
  | p :: rest => some ((rest.foldl (fun best q =>
      if gilOf best.2 < gilOf q.2 then q else best) p).1)

/-- The `if current_leader is not None:` bookkeeping of
`next_generation` (ensure the key, then `+= 1`). -/
def bump_leader_gil (ps : List (Int × Player)) (leader : Option Int) : List (Int × Player) :=
  match leader with
  | none => ps
  | some pid => dictModify ps pid (fun p =>
      { p with generations_in_lead := some (p.generations_in_lead.getD 0 + 1) })

/-- One placement attempt loop of `_seed_patterns` (the inner
`while attempt < max_attempts_per_pattern and not placed_this_one`),
with `fuel` the remaining attempts. -/
def seed_try_place (g : Game) (coords : List (Nat × Nat)) (p_height p_width : Nat)
    (placements : List (Nat × Nat)) :
    Nat → Oracle → Game × List (Nat × Nat) × Oracle
  | 0, o => (g, placements, o)
  | fuel + 1, o =>
    let a1 := randint 0 ((g.height : Int) - (p_height : Int)) o
    let a2 := randint 0 ((g.width : Int) - (p_width : Int)) a1.2
    let o2 := a2.2
    let start_r := a1.1.toNat
    let start_c := a2.1.toNat
    let proximity := max p_width p_height + 4
    let too_close := placements.any (fun pr =>
      decide (((start_r : Int) - (pr.1 : Int)).natAbs < proximity) &&
      decide (((start_c : Int) - (pr.2 : Int)).natAbs < proximity))
    if too_close then seed_try_place g coords p_height p_width placements fuel o2
    else if is_area_clear g start_r start_c coords then
      (place_pattern g start_r start_c coords INTERNAL_LIVE,
       placements ++ [(start_r, start_c)], o2)
    else seed_try_place g coords p_height p_width placements fuel o2

/-- The per-pattern instance loop of `_seed_patterns` (`for _ in
range(num_to_place)`), each instance getting a fresh 100-attempt
budget. -/
def seed_place_n (coords : List (Nat × Nat)) (p_height p_width : Nat) :
    Nat → Game × List (Nat × Nat) × Oracle → Game × List (Nat × Nat) × Oracle
  | 0, st => st
  | n + 1, (g, placements, o) =>
    seed_place_n coords p_height p_width n (seed_try_place g coords p_height p_width placements 100 o)

/-- `GameOfLife._seed_patterns(num_blocks, num_blinkers, num_lwss)`:
the `patterns_to_seed` list is `[block×nb, blinker_h×nbl, lwss×nl,
beacon×2, toad×2, glider×3]`; `placements` accumulates accepted anchors
across all patterns of the pass (the pattern-name tag the source stores
with each anchor is ignored by the only reader, the proximity check, so
it is not modelled). -/
def seed_patterns (g : Game) (num_blocks num_blinkers num_lwss : Nat) (o : Oracle) :
    Game × Oracle :=
  let entries : List (List (Nat × Nat) × Nat × Nat × Nat) :=
    [ (pattern_block, 2, 2, num_blocks),
      (pattern_blinker_h, 1, 3, num_blinkers),
      (pattern_lwss, 4, 5, num_lwss),
      (pattern_beacon, 4, 4, 2),
      (pattern_toad, 2, 4, 2),
      (pattern_glider, 3, 3, 3) ]
  let st := entries.foldl (fun st e =>
    seed_place_n e.1 e.2.1 e.2.2.1 e.2.2.2 st) (g, ([] : List (Nat × Nat)), o)
  (st.1, st.2.2)

/-- The placement loop of `add_player` (`while attempts < max_attempts
and placed_at is None`): on success stamps the glider with `player_id`
and installs the fresh player record (note `'wins': 0` and
`last_respawn_time = now - RESPAWN_COOLDOWN`). -/
def add_player_search (g : Game) (player_id : Int) (now : Int) :
    Nat → Oracle → Game × Option (Nat × Nat) × Oracle
  | 0, o => (g, none, o)
  | fuel + 1, o =>
    let a1 := randint 0 ((g.height : Int) - (PATTERN_HEIGHT : Int)) o
    let a2 := randint 0 ((g.width : Int) - (PATTERN_WIDTH : Int)) a1.2
    let o2 := a2.2
    let start_r := a1.1.toNat
    let start_c := a2.1.toNat
    if is_area_clear g start_r start_c PLAYER_SPAWN_PATTERN then
      let g1 := place_pattern g start_r start_c PLAYER_SPAWN_PATTERN player_id
      let record : Player :=
        { pos := some (start_r, start_c),
          last_respawn_time := some (now - RESPAWN_COOLDOWN),
          respawn_count := some 0,
          wins := some 0,
          generations_in_lead := none,
          moving := none,
          move_direction := none }
      let g2 := { g1 with players := dictSet g1.players player_id record }
      (g2, some (start_r, start_c), o2)
    else add_player_search g player_id now fuel o2

/-- The disruption-injection loop of `add_player` (`while
disrupted_count < num_disrupt_cells and disrupt_attempts <
max_disrupt_attempts`): `fuel` is the remaining attempt budget (20),
`count` the cells added so far (target 5). -/
def disruption_loop (start_r start_c : Nat) :
    Nat → Nat → Game × Oracle → Game × Oracle
  | 0, _, st => st
  | fuel + 1, count, (g, o) =>
    if 5 ≤ count then (g, o)
    else
      let a1 := randint (-3) 3 o
      let a2 := randint (-3) 3 a1.2
      let offset_r := a1.1
      let offset_c := a2.1
      let o2 := a2.2
      if PLAYER_SPAWN_PATTERN.any (fun d =>
          decide (offset_r = (d.1 : Int)) && decide (offset_c = (d.2 : Int))) then
        disruption_loop start_r start_c fuel count (g, o2)
      else
        let r := wrap ((start_r : Int) + offset_r) g.height
        let c := wrap ((start_c : Int) + offset_c) g.width
        if is_valid g r c && iget g.grid r c = INTERNAL_DEAD then
          disruption_loop start_r start_c fuel (count + 1)
            ({ g with grid := gridSet g.grid r c INTERNAL_LIVE }, o2)
        else disruption_loop start_r start_c fuel count (g, o2)

/-- `GameOfLife.add_player(player_id, inject_disruption)`; the `Bool`
is the returned success flag. -/
def add_player (g : Game) (player_id : Int) (now : Int) (inject_disruption : Bool)
    (o : Oracle) : Game × Bool × Oracle :=
  let max_attempts := max 100 ((g.width * g.height) / (PATTERN_WIDTH * PATTERN_HEIGHT))
  let s := add_player_search g player_id now max_attempts o
  match s.2.1 with
  | some rc =>
    if inject_disruption then
      let d := disruption_loop rc.1 rc.2 20 0 (s.1, s.2.2)
      (d.1, true, d.2)
    else (s.1, true, s.2.2)
  | none => (s.1, false, s.2.2)

/-- The full-grid scan of `remove_player` / the non-god path of
`respawn_player` that zeroes every cell equal to `player_id`. -/
def clear_player_cells (g : Game) (player_id : Int) : Game :=
  { g with grid := (List.range g.height).foldl (fun gr r =>
      (List.range g.width).foldl (fun gr2 c =>
        if iget gr2 r c = player_id then gridSet gr2 r c INTERNAL_DEAD else gr2) gr) g.grid }

/-- `GameOfLife.remove_player(player_id)`: clears the player's cells and
deletes the record, but only when the id is registered (`if player_id in
self.players:`). -/
def remove_player (g : Game) (player_id : Int) : Game :=
  if dictMem g.players player_id then
    let g1 := clear_player_cells g player_id
    { g1 with players := dictDel g1.players player_id }
  else g

/-- Step 1 of the god-mode path of `respawn_player`: zero every cell. -/
def clear_all_cells (g : Game) : Game :=
  { g with grid := (List.range g.height).foldl (fun gr r =>
      (List.range g.width).foldl (fun gr2 c =>
        gridSet gr2 r c INTERNAL_DEAD) gr) g.grid }

/-- Step 5 of the god-mode path of `respawn_player`: re-add every
registered player via `add_player(pid, inject_disruption=False)`,
collecting the ids that could not be placed. -/
def god_mode_readd (now : Int) :
    List Int → Game × List Int × Oracle → Game × List Int × Oracle
  | [], st => st
  | pid :: rest, (g, failed, o) =>
    if dictMem g.players pid then
      let a := add_player g pid now false o
      god_mode_readd now rest (a.1, if a.2.1 then failed else failed ++ [pid], a.2.2)
    else god_mode_readd now rest (g, failed, o)

/-- Search order of the non-god respawn ring (`for offset in
range(1, max_offset + 1): for dr in [-offset, 0, offset]: for dc in
[-offset, 0, offset]` with `(0, 0)` skipped). -/
def ring_offsets : List (Int × Int) :=
  (List.range 5).flatMap (fun k =>
    let o := (k : Int) + 1
    [(-o, -o), (-o, 0), (-o, o), (0, -o), (0, o), (o, -o), (o, 0), (o, o)])

/-- The ring search of the non-god respawn path: the first wrapped
candidate anchor whose spawn-pattern footprint is clear. -/
def ring_search (g : Game) (pos : Nat × Nat) : Option (Nat × Nat) :=
  (ring_offsets.map (fun d =>
    (wrap ((pos.1 : Int) + d.1) g.height, wrap ((pos.2 : Int) + d.2) g.width))).find?
    (fun rc => is_area_clear g rc.1 rc.2 PLAYER_SPAWN_PATTERN)

/-- The result messages of `respawn_player`, in place of the source's
f-strings; `cooldown` carries the computed remaining time. -/
inductive RespawnMsg
  | stateNotFound
  | cooldown (remaining : Int)
  | boardResetOk
  | failedPlayers (n : Nat)
  | noPositionData
  | respawnOk
  | noSpaceNearby
deriving DecidableEq, Repr

/-- The `if is_god_mode:` block of `respawn_player`: clear the whole
board, reset the generation counter, reset win counters only when the
reset is not the automatic round-end one (`hasattr(self, '_auto_reset')`),
reseed (with a reduced budget when the player count is high relative to
the board), and re-add every registered player. -/
def god_mode_reset (g : Game) (now : Int) (o : Oracle) :
    Game × Bool × RespawnMsg × Oracle :=
  let g1 := clear_all_cells g
  let g2 := { g1 with generation_count := 0 }
  let g3 := if g2.auto_reset then g2
    else { g2 with players := g2.players.map (fun p : Int × Player =>
      (p.1, { p.2 with wins := some 0 })) }
  let total_cells := g3.width * g3.height
  let num_players := g3.players.length
  let reserved_space := total_cells / 5
  let available_space := total_cells - reserved_space
  let sd :=
    if available_space / (PATTERN_WIDTH * PATTERN_HEIGHT) < num_players then
      seed_patterns g3 2 2 1 o
    else seed_patterns g3 5 5 3 o
  let rd := god_mode_readd now (dictKeys sd.1.players) (sd.1, [], sd.2)
  if rd.2.1.length ≠ 0 then (rd.1, false, RespawnMsg.failedPlayers rd.2.1.length, rd.2.2)
  else (rd.1, true, RespawnMsg.boardResetOk, rd.2.2)

/-- The non-god tail of `respawn_player`: clear only this player's
cells, ring-search for a nearby clear anchor, and on success place the
pattern and update the record's stats. -/
def regular_respawn (g : Game) (player_id now : Int) (current_pos : Nat × Nat)
    (old_respawn_count : Nat) (o : Oracle) : Game × Bool × RespawnMsg × Oracle :=
  let g1 := clear_player_cells g player_id
  match ring_search g1 current_pos with
  | some new_pos =>
    let g2 := place_pattern g1 new_pos.1 new_pos.2 PLAYER_SPAWN_PATTERN player_id
    let g3 := { g2 with players := dictModify g2.players player_id (fun p =>
      { p with last_respawn_time := some now,
               respawn_count := some (old_respawn_count + 1),
               pos := some new_pos,
               moving := some true,
               move_direction := some ((0 : Int), (1 : Int)) }) }
    (g3, true, RespawnMsg.respawnOk, o)
  | none => (g1, false, RespawnMsg.noSpaceNearby, o)

/-- `GameOfLife.respawn_player(player_id, is_god_mode)`: returns the new
state, the success flag, and the message. -/
def respawn_player (g : Game) (player_id : Int) (now : Int) (is_god_mode : Bool)
    (o : Oracle) : Game × Bool × RespawnMsg × Oracle :=
  match dictGet g.players player_id with
  | none => (g, false, RespawnMsg.stateNotFound, o)
  | some player_data =>
    let last_respawn := player_data.last_respawn_time.getD 0
    let time_since_respawn := now - last_respawn
    if time_since_respawn < RESPAWN_COOLDOWN ∧ is_god_mode = false then
      (g, false, RespawnMsg.cooldown (RESPAWN_COOLDOWN - time_since_respawn), o)
    else
      let old_respawn_count := player_data.respawn_count.getD 0
      if is_god_mode then god_mode_reset g now o
      else
        match player_data.pos with
        | none => (g, false, RespawnMsg.noPositionData, o)
        | some current_pos =>
          regular_respawn g player_id now current_pos old_respawn_count o

/-- The `for pid in list(self.players.keys())` god-mode restart loop at
the end of `next_generation`'s round-boundary block. -/
def respawn_all_god (now : Int) : List Int → Game × Oracle → Game × Oracle
  | [], st => st
  | pid :: rest, (g, o) =>
    if dictMem g.players pid then
      let r := respawn_player g pid now true o
      respawn_all_god now rest (r.1, r.2.2.2)
    else respawn_all_god now rest (g, o)

/-- The bookkeeping part of the round-boundary block of
`next_generation`, after the winner has been found: increment the
winner's `wins` (guarded by the redundant `if winner in self.players:`),
zero `generation_count`, zero every player's `generations_in_lead`, and
raise the `_auto_reset` flag. -/
def round_reset_bookkeeping (g : Game) (winner : Int) : Game :=
  let g1 := if dictMem g.players winner then
      { g with players := dictModify g.players winner (fun p =>
        { p with wins := some (p.wins.getD 0 + 1) }) }
    else g
  let g2 := { g1 with generation_count := 0 }
  let g3 := { g2 with players := g2.players.map (fun p : Int × Player =>
    (p.1, { p.2 with generations_in_lead := some 0 })) }
  { g3 with auto_reset := true }

/-- The round-boundary block of `next_generation` (entered when the
incremented `generation_count` reaches 2500): winner lookup (`none`
models the `ValueError` of `max` on an empty registry), win increment,
resets, and the auto god-mode restart. -/
def round_reset (g : Game) (now : Int) (o : Oracle) : Option (Game × Oracle) :=
  match round_winner g.players with
  | none => none
  | some winner =>
    let g4 := round_reset_bookkeeping g winner
    let rg := respawn_all_god now (dictKeys g4.players) (g4, o)
    some ({ rg.1 with auto_reset := false }, rg.2)

/-- `GameOfLife.next_generation()`: leader scan on the old grid,
double-buffered grid step, generation increment, leader bookkeeping,
and the round-boundary block; `none` models the uncaught `ValueError`
when the boundary is hit with an empty player registry. -/
def next_generation (g : Game) (now : Int) (o : Oracle) : Option (Game × Oracle) :=
  let current_leader := find_current_leader g
  let g1 := { g with grid := step_grid g }
  let g2 := { g1 with generation_count := g1.generation_count + 1 }
  let g3 := { g2 with players := bump_leader_gil g2.players current_leader }
  if 2500 ≤ g3.generation_count then round_reset g3 now o
  else some (g3, o)

/-- `STABILITY_CHECK_TICKS = 20` from `server.py`. -/
def STABILITY_CHECK_TICKS : Nat := 20

/-- One tick of the stability check in `run_game_loop` (`server.py`),
as a pure function of the window (`last_live_counts`), the flag
(`is_board_stable`), and the two live-cell counts the loop compares:
a changed count resets the window and the flag; an unchanged count is
appended (popping the front past the window size) only while the flag
is down, and raises the flag once the window is full of one repeated
value (`len(set(...)) == 1`). -/
def stability_tick (window : List Nat) (stable : Bool) (previous current : Nat) :
    List Nat × Bool :=
  if current ≠ previous then ([current], false)
  else if stable then (window, stable)
  else
    let w1 := window ++ [current]
    let w2 := if STABILITY_CHECK_TICKS < w1.length then w1.tail else w1
    if w2.length = STABILITY_CHECK_TICKS && w2.all (fun x => x = w2.headD 0) then (w2, true)
    else (w2, false)

/-- Driving loop of the detector over a sequence of post-step live
counts: `previous_live_count` is re-read from the (unchanged) grid
before each step — i.e. the previous tick's count — except that it is
`0` while `last_live_counts` is empty, exactly as in `run_game_loop`. -/
def run_detector_aux : List Nat → List Nat × Bool × Nat → List Nat × Bool × Nat
  | [], st => st
  | current :: rest, (window, stable, lastCount) =>
    let previous := if window.isEmpty then 0 else lastCount
    let r := stability_tick window stable previous current
    run_detector_aux rest (r.1, r.2, current)

/-- The detector run from server start (`last_live_counts = []`,
`is_board_stable = False`) over a list of live counts. -/
def run_detector (counts : List Nat) : List Nat × Bool :=
  let st := run_detector_aux counts ([], false, 0)
  (st.1, st.2.1)

/-- Modelled from the spec, for refinement comparison with `step_grid`
(claim on Conway equivalence): live-neighbour count of the unmodified
rule — cells that are not `Dead` — over the same toroidal
neighbourhood. -/
def conway_live_neighbors (g : Game) (r c : Nat) : Nat :=
  (neighbor_vals g r c).countP (fun v => v ≠ INTERNAL_DEAD)

/-- Modelled from the spec, for refinement comparison with `step_grid`:
the unmodified Conway rule — a live cell survives iff it has 2 or 3
live neighbours, a dead cell is born iff it has exactly 3, every other
cell is `Dead`. -/
def conway_step_spec (g : Game) : List (List Int) :=
  (List.range g.height).map (fun r => (List.range g.width).map (fun c =>
    let n := conway_live_neighbors g r c
    if iget g.grid r c ≠ INTERNAL_DEAD then
      (if n = 2 ∨ n = 3 then INTERNAL_LIVE else INTERNAL_DEAD)
    else
      (if n = 3 then INTERNAL_LIVE else INTERNAL_DEAD)))

/-! ### Shared lemmas -/

theorem wrap_lt (x : Int) (m : Nat) (hm : 0 < m) : wrap x m < m := by
  unfold wrap
  have hm' : ((m : Nat) : Int) ≠ 0 := by exact_mod_cast hm.ne'
  have h1 : 0 ≤ x % (m : Int) := Int.emod_nonneg x hm'
  have h2 : x % (m : Int) < (m : Int) := Int.emod_lt_of_pos x (by exact_mod_cast hm)
  omega

theorem iget_map_range (h w : Nat) (f : Nat → Nat → Int) (r c : Nat)
    (hr : r < h) (hc : c < w) :
    iget ((List.range h).map (fun r => (List.range w).map (fun c => f r c))) r c = f r c := by
  simp [iget, List.getD_eq_getElem?_getD, List.getElem?_map, List.getElem?_range, hr, hc]

theorem iget_step_grid (g : Game) (r c : Nat) (hr : r < g.height) (hc : c < g.width) :
    iget (step_grid g) r c = next_cell g r c :=
  iget_map_range g.height g.width (fun r c => next_cell g r c) r c hr hc

/-- The fold of `_get_neighbors_state`, over any offset list and from
any accumulator, splits into a live count and an id fold over the
visited values. -/
theorem gns_fold_split (g : Game) (r c : Nat) (L : List (Int × Int)) (n : Nat)
    (ids : List Int) :
    L.foldl (gns_step g r c) (n, ids) =
    (n + (L.map (fun ij =>
        iget g.grid (wrap ((r : Int) + ij.1) g.height)
          (wrap ((c : Int) + ij.2) g.width))).countP is_live_val,
     (L.map (fun ij =>
        iget g.grid (wrap ((r : Int) + ij.1) g.height)
          (wrap ((c : Int) + ij.2) g.width))).foldl
       (fun l v => if 0 < v then addId l v else l) ids) := by
  induction L generalizing n ids with
  | nil => simp
  | cons ij rest IH =>
    simp only [List.foldl_cons, List.map_cons, List.countP_cons, gns_step]
    set v := iget g.grid (wrap ((r : Int) + ij.1) g.height)
      (wrap ((c : Int) + ij.2) g.width) with hv
    by_cases h1 : v = INTERNAL_LIVE
    · have hl : is_live_val v = true := by rw [h1]; decide
      have hp : ¬ (0 : Int) < v := by rw [h1]; decide
      rw [if_pos h1, IH]
      simp [hl, hp]
      omega
    · rw [if_neg h1]
      by_cases h2 : (0 : Int) < v
      · have hl : is_live_val v = true := by
          unfold is_live_val
          simp [h2]
        rw [if_pos h2, IH]
        simp [hl, h2]
        omega
      · have hl : is_live_val v = false := by
          unfold is_live_val INTERNAL_LIVE at h1 ⊢
          simp [h1, h2]
        rw [if_neg h2, IH]
        simp [hl, h2]

/-- `_get_neighbors_state` in terms of the visited neighbour values. -/
theorem gns_eq (g : Game) (r c : Nat) :
    get_neighbors_state g r c =
      ((neighbor_vals g r c).countP is_live_val,
       (neighbor_vals g r c).foldl (fun l v => if 0 < v then addId l v else l) []) := by
  unfold get_neighbors_state neighbor_vals
  rw [gns_fold_split]
  simp

/-! ### Claim C9: the `elif` ownership branch is unreachable -/

/-- C9: in `next_generation`'s ownership resolution, the `elif
current_state > 0 and influencing_pid != current_state` arm ("current
owner cell survives without influence") is never taken: the preceding
`if influencing_pid != current_state` already captured every state
satisfying its guard, so for every grid state and every cell the
branch classification is never `ghostSurvive`. -/
theorem claim_c9_ghost_branch_unreachable (g : Game) (r c : Nat) :
    cell_branch g r c ≠ Branch.ghostSurvive := by
  unfold cell_branch
  dsimp only
  simp only [List.headD_eq_head?_getD]
  by_cases hpe : (get_neighbors_state g r c).2.head?.getD 0 = iget g.grid r c
  all_goals simp [hpe]
  all_goals (repeat' split)
  all_goals simp

/-! ### Claim C7: cooldown gate of `respawn_player` -/

/-- C7: calling `respawn_player(id, is_god_mode=False)` for a registered
player while the elapsed time since that player's `last_respawn_time` is
strictly below the 15-second cooldown returns failure with a cooldown
message whose remaining time is strictly positive, and returns the game
state (grid and every player record) completely unchanged. -/
theorem claim_c7_cooldown_rejects (g : Game) (player_id now : Int) (o : Oracle)
    (rec : Player) (hrec : dictGet g.players player_id = some rec)
    (hcool : now - rec.last_respawn_time.getD 0 < RESPAWN_COOLDOWN) :
    respawn_player g player_id now false o =
      (g, false,
       RespawnMsg.cooldown (RESPAWN_COOLDOWN - (now - rec.last_respawn_time.getD 0)), o) ∧
    0 < RESPAWN_COOLDOWN - (now - rec.last_respawn_time.getD 0) := by
  constructor
  · unfold respawn_player
    rw [hrec]
    dsimp only
    rw [if_pos ⟨hcool, rfl⟩]
  · unfold RESPAWN_COOLDOWN at hcool ⊢
    omega

/-- Fixture player record for witnesses. -/
def witnessPlayer : Player :=
  { pos := some (1, 1), last_respawn_time := some 20, respawn_count := some 0,
    wins := some 0, generations_in_lead := none, moving := none, move_direction := none }

/-- Fixture game state for witnesses: an empty 6×8 board with one
registered player. -/
def witnessGame : Game :=
  { width := 8, height := 6,
    grid := (List.range 6).map (fun _ => (List.range 8).map (fun _ => 0)),
    players := [(1, witnessPlayer)], generation_count := 0, auto_reset := false }

/-- Witness for C7 at a concrete input: player 1 respawned at time 20,
asked again at time 30 (5 seconds of cooldown remain). -/
theorem claim_c7_witness :
    respawn_player witnessGame 1 30 false ⟨[]⟩ =
      (witnessGame, false, RespawnMsg.cooldown 5, ⟨[]⟩) ∧ (0 : Int) < 5 := by
  have h := claim_c7_cooldown_rejects witnessGame 1 30 ⟨[]⟩ witnessPlayer (by decide)
    (by decide)
  have e : RESPAWN_COOLDOWN - ((30 : Int) - witnessPlayer.last_respawn_time.getD 0) = 5 := by
    decide
  rw [e] at h
  exact h

/-! ### Claim C3: toroidal neighbour wrapping -/

theorem wrap_eq_of_lt (x : Int) (m y : Nat) (h1 : x = (y : Int)) (h2 : y < m) :
    wrap x m = y := by
  subst h1
  unfold wrap
  rw [Int.emod_eq_of_lt (by positivity) (by exact_mod_cast h2)]
  simp

theorem wrap_self_eq_zero (x : Int) (m : Nat) (h1 : x = (m : Int)) : wrap x m = 0 := by
  subst h1
  unfold wrap
  rw [Int.emod_self]
  rfl

/-- A board of arbitrary size whose only live cell is the `(0, 0)`
corner. -/
def cornerGame (h w : Nat) : Game :=
  { width := w, height := h,
    grid := (List.range h).map (fun r => (List.range w).map (fun c =>
      if r = 0 ∧ c = 0 then INTERNAL_LIVE else INTERNAL_DEAD)),
    players := [], generation_count := 0, auto_reset := false }

/-- C3: for every board size, the neighbour computation of the step
wraps row and column indices modulo height and width: on the board
whose only live cell is corner `(0, 0)`, the cell at the diagonally
opposite corner `(h-1, w-1)` sees that cell as exactly one live
neighbour — through the offset `(+1, +1)` that wraps both axes — and
its live-neighbour count is 1. -/
theorem claim_c3_toroidal_wrap (h w : Nat) (hh : 3 ≤ h) (hw : 3 ≤ w) :
    neighbor_vals (cornerGame h w) (h - 1) (w - 1) =
      [0, 0, 0, 0, 0, 0, 0, INTERNAL_LIVE] ∧
    (get_neighbors_state (cornerGame h w) (h - 1) (w - 1)).1 = 1 := by
  have hcw : (cornerGame h w).height = h := rfl
  have hcw2 : (cornerGame h w).width = w := rfl
  have erm : wrap (((h - 1 : Nat) : Int) + (-1)) h = h - 2 :=
    wrap_eq_of_lt _ _ _ (by omega) (by omega)
  have er0 : wrap (((h - 1 : Nat) : Int) + 0) h = h - 1 :=
    wrap_eq_of_lt _ _ _ (by omega) (by omega)
  have erp : wrap (((h - 1 : Nat) : Int) + 1) h = 0 :=
    wrap_self_eq_zero _ _ (by omega)
  have ecm : wrap (((w - 1 : Nat) : Int) + (-1)) w = w - 2 :=
    wrap_eq_of_lt _ _ _ (by omega) (by omega)
  have ec0 : wrap (((w - 1 : Nat) : Int) + 0) w = w - 1 :=
    wrap_eq_of_lt _ _ _ (by omega) (by omega)
  have ecp : wrap (((w - 1 : Nat) : Int) + 1) w = 0 :=
    wrap_self_eq_zero _ _ (by omega)
  have ig : ∀ a b : Nat, a < h → b < w → iget (cornerGame h w).grid a b =
      (if a = 0 ∧ b = 0 then INTERNAL_LIVE else INTERNAL_DEAD) := by
    intro a b ha hb
    exact iget_map_range h w _ a b ha hb
  have hvals : neighbor_vals (cornerGame h w) (h - 1) (w - 1) =
      [0, 0, 0, 0, 0, 0, 0, INTERNAL_LIVE] := by
    unfold neighbor_vals neighbor_offsets
    simp only [List.map_cons, List.map_nil, hcw, hcw2, erm, er0, erp, ecm, ec0, ecp]
    rw [ig (h - 2) (w - 2) (by omega) (by omega),
        ig (h - 2) (w - 1) (by omega) (by omega),
        ig (h - 2) 0 (by omega) (by omega),
        ig (h - 1) (w - 2) (by omega) (by omega),
        ig (h - 1) 0 (by omega) (by omega),
        ig 0 (w - 2) (by omega) (by omega),
        ig 0 (w - 1) (by omega) (by omega),
        ig 0 0 (by omega) (by omega)]
    have h2 : ¬ (h - 2 = 0) := by omega
    have h1' : ¬ (h - 1 = 0) := by omega
    have w2 : ¬ (w - 2 = 0) := by omega
    have w1' : ¬ (w - 1 = 0) := by omega
    simp [h2, h1', w2, w1', INTERNAL_DEAD]
  refine ⟨hvals, ?_⟩
  rw [gns_eq, hvals]
  decide

/-- Witness for C3 at a concrete size (5×7). -/
theorem claim_c3_witness :
    neighbor_vals (cornerGame 5 7) 4 6 = [0, 0, 0, 0, 0, 0, 0, INTERNAL_LIVE] ∧
    (get_neighbors_state (cornerGame 5 7) 4 6).1 = 1 :=
  claim_c3_toroidal_wrap 5 7 (by decide) (by decide)

/-! ### Claim C1: single-owner influence on a born cell -/

theorem fold_addId_const (P : Int) (L : List Int) (hall : ∀ v ∈ L, 0 < v → v = P) :
    L.foldl (fun l v => if 0 < v then addId l v else l) [P] = [P] := by
  induction L with
  | nil => simp
  | cons a rest IH =>
    simp only [List.foldl_cons]
    by_cases ha : (0 : Int) < a
    · rw [if_pos ha, hall a (by simp) ha]
      have e : addId [P] P = [P] := by simp [addId]
      rw [e]
      exact IH (fun v hv hp => hall v (by simp [hv]) hp)
    · rw [if_neg ha]
      exact IH (fun v hv hp => hall v (by simp [hv]) hp)

theorem fold_addId_single (P : Int) (L : List Int)
    (hall : ∀ v ∈ L, 0 < v → v = P) (hex : ∃ v ∈ L, 0 < v) :
    L.foldl (fun l v => if 0 < v then addId l v else l) [] = [P] := by
  induction L with
  | nil => simp at hex
  | cons a rest IH =>
    simp only [List.foldl_cons]
    by_cases ha : (0 : Int) < a
    · rw [if_pos ha, hall a (by simp) ha]
      have e : addId [] P = [P] := by simp [addId]
      rw [e]
      exact fold_addId_const P rest (fun v hv hp => hall v (by simp [hv]) hp)
    · rw [if_neg ha]
      refine IH (fun v hv hp => hall v (by simp [hv]) hp) ?_
      obtain ⟨v, hv, hp⟩ := hex
      rcases List.mem_cons.mp hv with h | h
      · exact absurd (h ▸ hp) ha
      · exact ⟨v, h, hp⟩

theorem fold_addId_mem_mono (L : List Int) (ids : List Int) (v : Int) (hv : v ∈ ids) :
    v ∈ L.foldl (fun l v => if 0 < v then addId l v else l) ids := by
  induction L generalizing ids with
  | nil => simpa using hv
  | cons a rest IH =>
    simp only [List.foldl_cons]
    refine IH _ ?_
    by_cases ha : (0 : Int) < a
    · rw [if_pos ha]
      unfold addId
      split
      · exact hv
      · simp [hv]
    · rwa [if_neg ha]

theorem fold_addId_mem (L : List Int) (ids : List Int) (v : Int) (hv : v ∈ L)
    (hp : 0 < v) : v ∈ L.foldl (fun l v => if 0 < v then addId l v else l) ids := by
  induction L generalizing ids with
  | nil => simp at hv
  | cons a rest IH =>
    simp only [List.foldl_cons]
    rcases List.mem_cons.mp hv with h | h
    · subst h
      rw [if_pos hp]
      refine fold_addId_mem_mono _ _ _ ?_
      unfold addId
      split
      · assumption
      · simp
    · exact IH _ h

/-- A born or surviving cell whose neighbour scan produced a singleton
id set `[P]` with `P` different from the cell's own state takes value
`P`. -/
theorem next_cell_influence (g : Game) (r c : Nat) (P : Int)
    (hcount : (get_neighbors_state g r c).1 = 3)
    (hids : (get_neighbors_state g r c).2 = [P])
    (hdead : iget g.grid r c = INTERNAL_DEAD) (hP : 0 < P) :
    next_cell g r c = P := by
  have hP0 : P ≠ 0 := hP.ne'
  unfold next_cell cell_branch branch_value
  simp [hcount, hids, hdead, INTERNAL_DEAD, INTERNAL_LIVE, hP0]

/-- A dead cell with 3 live neighbours but not exactly one distinct
owner id among them is born as a standard live cell. -/
theorem next_cell_mixed (g : Game) (r c : Nat)
    (hcount : (get_neighbors_state g r c).1 = 3)
    (hlen : (get_neighbors_state g r c).2.length ≠ 1)
    (hdead : iget g.grid r c = INTERNAL_DEAD) :
    next_cell g r c = INTERNAL_LIVE := by
  unfold next_cell cell_branch branch_value
  simp [hcount, hlen, hdead, INTERNAL_DEAD, INTERNAL_LIVE]

theorem length_ne_one_of_two_mem {l : List Int} {a b : Int} (ha : a ∈ l) (hb : b ∈ l)
    (hne : a ≠ b) : l.length ≠ 1 := by
  intro hlen1
  rcases l with _ | ⟨x, t⟩
  · simp at ha
  · rcases t with _ | ⟨y, u⟩
    · simp at ha hb
      exact hne (ha.trans hb.symm)
    · simp at hlen1

/-- C1: for every grid and every dead cell whose 8 toroidal neighbours
contain exactly 3 live cells, (a) if the live neighbours are all owned
by the same player id `P` the cell becomes `OwnedBy(P)` after the step,
and (b) if the live neighbours are owned by two distinct player ids
`P ≠ Q` (each occurring) the cell becomes a standard live cell, owned
by neither. -/
theorem claim_c1_single_owner_influence (g : Game) (r c : Nat) (P Q : Int)
    (hr : r < g.height) (hc : c < g.width)
    (hdead : iget g.grid r c = INTERNAL_DEAD) :
    (0 < P → (neighbor_vals g r c).countP is_live_val = 3 →
      (∀ v ∈ neighbor_vals g r c, is_live_val v → v = P) →
      iget (step_grid g) r c = P) ∧
    (0 < P → 0 < Q → P ≠ Q →
      (neighbor_vals g r c).countP is_live_val = 3 →
      (∀ v ∈ neighbor_vals g r c, is_live_val v → v = P ∨ v = Q) →
      P ∈ neighbor_vals g r c → Q ∈ neighbor_vals g r c →
      iget (step_grid g) r c = INTERNAL_LIVE) := by
  constructor
  · intro hP hcount hall
    rw [iget_step_grid g r c hr hc]
    refine next_cell_influence g r c P ?_ ?_ hdead hP
    · rw [gns_eq]
      exact hcount
    · rw [gns_eq]
      refine fold_addId_single P _ ?_ ?_
      · intro v hv hvp
        exact hall v hv (by simp [is_live_val, hvp])
      · obtain ⟨v, hv, hlive⟩ := List.countP_pos_iff.mp (by rw [hcount]; omega)
        refine ⟨v, hv, ?_⟩
        rw [hall v hv hlive]
        exact hP
  · intro hP hQ hne hcount hall hPm hQm
    rw [iget_step_grid g r c hr hc]
    refine next_cell_mixed g r c ?_ ?_ hdead
    · rw [gns_eq]
      exact hcount
    · rw [gns_eq]
      exact length_ne_one_of_two_mem (fold_addId_mem _ _ _ hPm hP)
        (fold_addId_mem _ _ _ hQm hQ) hne

/-- 4×4 board: three cells owned by player 7 above the dead cell
`(1, 1)`. -/
def c1GameA : Game :=
  { width := 4, height := 4,
    grid := [[7, 7, 7, 0], [0, 0, 0, 0], [0, 0, 0, 0], [0, 0, 0, 0]],
    players := [], generation_count := 0, auto_reset := false }

/-- 4×4 board: the three live neighbours of `(1, 1)` owned by players 7
and 8. -/
def c1GameB : Game :=
  { width := 4, height := 4,
    grid := [[7, 8, 7, 0], [0, 0, 0, 0], [0, 0, 0, 0], [0, 0, 0, 0]],
    players := [], generation_count := 0, auto_reset := false }

/-- Witness for C1 at concrete inputs: cell `(1, 1)` of `c1GameA`
becomes owned by 7; cell `(1, 1)` of `c1GameB` becomes standard live. -/
theorem claim_c1_witness :
    iget (step_grid c1GameA) 1 1 = 7 ∧ iget (step_grid c1GameB) 1 1 = INTERNAL_LIVE := by
  constructor
  · exact (claim_c1_single_owner_influence c1GameA 1 1 7 0 (by decide) (by decide)
      (by decide)).1 (by decide) (by decide) (by decide)
  · exact (claim_c1_single_owner_influence c1GameB 1 1 7 8 (by decide) (by decide)
      (by decide)).2 (by decide) (by decide) (by decide) (by decide) (by decide)
      (by decide) (by decide)

/-! ### Claim C6: `remove_player` cleanup -/

theorem iget_row_oob (grid : List (List Int)) (r c : Nat) (h : grid.length ≤ r) :
    iget grid r c = 0 := by
  unfold iget
  rw [List.getD_eq_getElem?_getD grid r, List.getElem?_eq_none h]
  rfl

theorem iget_col_oob (grid : List (List Int)) (r c : Nat)
    (h : (grid.getD r []).length ≤ c) : iget grid r c = 0 := by
  unfold iget
  rw [List.getD_eq_getElem?_getD (grid.getD r []) c, List.getElem?_eq_none h]
  rfl

theorem iget_gridSet_self (grid : List (List Int)) (r c : Nat) (v : Int)
    (hr : r < grid.length) (hc : c < (grid.getD r []).length) :
    iget (gridSet grid r c v) r c = v := by
  unfold iget gridSet
  rw [List.getD_eq_getElem?_getD (grid.set r ((grid.getD r []).set c v)) r,
    List.getElem?_set_self (by simpa using hr)]
  simp only [Option.getD_some]
  rw [List.getD_eq_getElem?_getD ((grid.getD r []).set c v) c,
    List.getElem?_set_self hc]
  rfl

theorem iget_gridSet_cases (grid : List (List Int)) (r c : Nat) (v : Int) (r' c' : Nat) :
    iget (gridSet grid r c v) r' c' = v ∨
    iget (gridSet grid r c v) r' c' = iget grid r' c' := by
  by_cases hr : r = r'
  · subst hr
    by_cases hlt : r < grid.length
    · by_cases hc : c = c'
      · subst hc
        by_cases hcl : c < (grid.getD r []).length
        · left
          exact iget_gridSet_self grid r c v hlt hcl
        · right
          unfold iget gridSet
          rw [List.getD_eq_getElem?_getD (grid.set r ((grid.getD r []).set c v)) r,
            List.getElem?_set_self (by simpa using hlt)]
          simp only [Option.getD_some]
          rw [List.getD_eq_getElem?_getD ((grid.getD r []).set c v) c,
            List.getElem?_eq_none (by simpa using hcl),
            List.getD_eq_getElem?_getD (grid.getD r []) c,
            List.getElem?_eq_none (by omega)]
      · right
        unfold iget gridSet
        rw [List.getD_eq_getElem?_getD (grid.set r ((grid.getD r []).set c v)) r,
          List.getElem?_set_self (by simpa using hlt)]
        simp only [Option.getD_some]
        rw [List.getD_eq_getElem?_getD ((grid.getD r []).set c v) c',
          List.getElem?_set_ne hc,
          List.getD_eq_getElem?_getD (grid.getD r []) c']
    · right
      unfold iget gridSet
      rw [List.getD_eq_getElem?_getD (grid.set r ((grid.getD r []).set c v)) r,
        List.getElem?_set, if_pos rfl, if_neg (by simpa using hlt),
        List.getD_eq_getElem?_getD grid r, List.getElem?_eq_none (by omega)]
  · right
    unfold iget gridSet
    rw [List.getD_eq_getElem?_getD (grid.set r ((grid.getD r []).set c v)) r',
      List.getElem?_set_ne hr, List.getD_eq_getElem?_getD grid r']

theorem foldl_write_only {α : Type} (v : Int)
    (step : List (List Int) → α → List (List Int))
    (hstep : ∀ gr a r' c', iget (step gr a) r' c' = v ∨
      iget (step gr a) r' c' = iget gr r' c')
    (L : List α) (gr : List (List Int)) (r' c' : Nat) :
    iget (L.foldl step gr) r' c' = v ∨
    iget (L.foldl step gr) r' c' = iget gr r' c' := by
  induction L generalizing gr with
  | nil => right; rfl
  | cons a rest IH =>
    rw [List.foldl_cons]
    rcases IH (step gr a) with h | h
    · left
      exact h
    · rcases hstep gr a r' c' with h2 | h2
      · left
        rw [h]
        exact h2
      · right
        rw [h]
        exact h2

theorem clear_colstep_cases (pid : Int) (r : Nat) (gr : List (List Int))
    (cc r' c' : Nat) :
    iget (if iget gr r cc = pid then gridSet gr r cc 0 else gr) r' c' = 0 ∨
    iget (if iget gr r cc = pid then gridSet gr r cc 0 else gr) r' c' = iget gr r' c' := by
  split
  · exact iget_gridSet_cases gr r cc 0 r' c'
  · right
    rfl

theorem clear_inner_processed (pid : Int) (hpid : pid ≠ 0) (r : Nat) (cs : List Nat)
    (gr : List (List Int)) (c' : Nat) (hc' : c' ∈ cs) :
    iget (cs.foldl (fun gr2 c => if iget gr2 r c = pid then gridSet gr2 r c 0 else gr2) gr)
      r c' ≠ pid := by
  induction cs generalizing gr with
  | nil => simp at hc'
  | cons a rest IH =>
    rw [List.foldl_cons]
    rcases List.mem_cons.mp hc' with h | h
    · subst h
      have h1 : iget (if iget gr r c' = pid then gridSet gr r c' 0 else gr) r c' ≠ pid := by
        split
        · rename_i hcell
          have hrlen : r < gr.length := by
            by_contra hnr
            rw [iget_row_oob gr r c' (by omega)] at hcell
            exact hpid hcell.symm
          have hclen : c' < (gr.getD r []).length := by
            by_contra hnc
            rw [iget_col_oob gr r c' (by omega)] at hcell
            exact hpid hcell.symm
          rw [iget_gridSet_self gr r c' 0 hrlen hclen]
          exact fun e => hpid e.symm
        · rename_i hcell
          exact hcell
      rcases foldl_write_only 0 _ (fun gr2 cc a b => clear_colstep_cases pid r gr2 cc a b)
          rest _ r c' with h2 | h2
      · rw [h2]
        exact fun e => hpid e.symm
      · rw [h2]
        exact h1
    · exact IH _ h

theorem clear_rowstep_cases (pid : Int) (gr : List (List Int)) (w rr r' c' : Nat) :
    iget ((List.range w).foldl
      (fun gr2 c => if iget gr2 rr c = pid then gridSet gr2 rr c 0 else gr2) gr) r' c' = 0 ∨
    iget ((List.range w).foldl
      (fun gr2 c => if iget gr2 rr c = pid then gridSet gr2 rr c 0 else gr2) gr) r' c'
      = iget gr r' c' :=
  foldl_write_only 0 _ (fun gr2 cc a b => clear_colstep_cases pid rr gr2 cc a b)
    (List.range w) gr r' c'

theorem clear_outer_processed (pid : Int) (hpid : pid ≠ 0) (w : Nat) (rs : List Nat)
    (gr : List (List Int)) (r' c' : Nat) (hr' : r' ∈ rs) (hc' : c' < w) :
    iget (rs.foldl (fun grr r => (List.range w).foldl
      (fun gr2 c => if iget gr2 r c = pid then gridSet gr2 r c 0 else gr2) grr) gr)
      r' c' ≠ pid := by
  induction rs generalizing gr with
  | nil => simp at hr'
  | cons a rest IH =>
    rw [List.foldl_cons]
    rcases List.mem_cons.mp hr' with h | h
    · subst h
      have h1 := clear_inner_processed pid hpid r' (List.range w) gr c'
        (List.mem_range.mpr hc')
      rcases foldl_write_only 0 _
          (fun grr rr a b => clear_rowstep_cases pid grr w rr a b) rest _ r' c' with h2 | h2
      · rw [h2]
        exact fun e => hpid e.symm
      · rw [h2]
        exact h1
    · exact IH _ h

/-- After the full-grid scan of `clear_player_cells`, no in-range cell
holds `pid` (for a nonzero `pid`). -/
theorem clear_player_cells_spec (g : Game) (pid : Int) (hpid : pid ≠ 0)
    (r' c' : Nat) (hr : r' < g.height) (hc : c' < g.width) :
    iget (clear_player_cells g pid).grid r' c' ≠ pid := by
  unfold clear_player_cells
  exact clear_outer_processed pid hpid g.width (List.range g.height) g.grid r' c'
    (List.mem_range.mpr hr) hc

/-- State whose grid holds owner id 7 while no record for 7 exists. -/
def c6Game : Game :=
  { width := 2, height := 1, grid := [[7, 0]], players := [],
    generation_count := 0, auto_reset := false }

/-- C6 counterexample: on a state in which a cell holds id 7 while no
record for 7 exists, `remove_player(7)` takes the `id unknown` no-op
path and leaves the cell equal to 7 — refuting the claim that after
`remove_player(id)` no grid cell equals `id` "for all grid states,
including those in which cells hold id while no record for id exists". -/
theorem claim_c6_counterexample :
    iget (remove_player c6Game 7).grid 0 0 = 7 := by decide

/-- C6 (amended): after `remove_player(id)` no record for `id` remains
in `players`, and — provided `id` was registered at the time of the
call (being a positive player id) — no in-range grid cell equals `id`.
When `id` is unregistered the call is a no-op (`if player_id in
self.players:`), so orphan cells holding `id` persist. -/
theorem claim_c6_remove_player_amended (g : Game) (player_id : Int) :
    dictMem (remove_player g player_id).players player_id = false ∧
    (dictMem g.players player_id = true → 0 < player_id →
      ∀ r' c', r' < g.height → c' < g.width →
        iget (remove_player g player_id).grid r' c' ≠ player_id) := by
  constructor
  · unfold remove_player
    split
    · dsimp only
      simp [dictDel, dictMem, List.any_eq_true, List.mem_filter]
    · rename_i hnm
      simpa using hnm
  · intro hm hpos r' c' hr hc
    unfold remove_player
    rw [if_pos hm]
    dsimp only
    exact clear_player_cells_spec g player_id hpos.ne' r' c' hr hc

/-- Witness for the amended C6 at a concrete input: removing registered
player 1 from `witnessGame` deletes the record and leaves no cell
holding 1. -/
theorem claim_c6_witness :
    dictMem (remove_player witnessGame 1).players 1 = false ∧
    iget (remove_player witnessGame 1).grid 0 0 ≠ 1 := by
  have h := claim_c6_remove_player_amended witnessGame 1
  exact ⟨h.1, h.2 (by decide) (by decide) 0 0 (by decide) (by decide)⟩

/-! ### Claim C2: Conway equivalence without owners -/

theorem fold_addId_no_pos (L : List Int) (ids : List Int) (h : ∀ v ∈ L, ¬ 0 < v) :
    L.foldl (fun l v => if 0 < v then addId l v else l) ids = ids := by
  induction L with
  | nil => rfl
  | cons a rest IH =>
    rw [List.foldl_cons, if_neg (h a (by simp))]
    exact IH (fun v hv => h v (by simp [hv]))

/-- On an owner-free grid the per-cell step of `next_generation` agrees
with the spec's unmodified Conway rule. -/
theorem next_cell_eq_conway (g : Game) (r c : Nat)
    (hg : ∀ r c, iget g.grid r c = INTERNAL_DEAD ∨ iget g.grid r c = INTERNAL_LIVE) :
    next_cell g r c =
      (if iget g.grid r c ≠ INTERNAL_DEAD then
        (if conway_live_neighbors g r c = 2 ∨ conway_live_neighbors g r c = 3 then
          INTERNAL_LIVE else INTERNAL_DEAD)
      else
        (if conway_live_neighbors g r c = 3 then INTERNAL_LIVE else INTERNAL_DEAD)) := by
  have hvals : ∀ v ∈ neighbor_vals g r c, v = INTERNAL_DEAD ∨ v = INTERNAL_LIVE := by
    intro v hv
    obtain ⟨ij, hij, rfl⟩ := List.mem_map.mp hv
    exact hg _ _
  have hids : (get_neighbors_state g r c).2 = [] := by
    rw [gns_eq]
    refine fold_addId_no_pos _ _ ?_
    intro v hv
    rcases hvals v hv with h | h <;> simp [h, INTERNAL_DEAD, INTERNAL_LIVE]
  have hcount : (get_neighbors_state g r c).1 = conway_live_neighbors g r c := by
    rw [gns_eq]
    unfold conway_live_neighbors
    refine List.countP_congr ?_
    intro v hv
    rcases hvals v hv with h | h <;> simp [h, is_live_val, INTERNAL_DEAD, INTERNAL_LIVE]
  set m := conway_live_neighbors g r c with hm
  unfold next_cell cell_branch branch_value
  rcases hg r c with hcur | hcur <;>
    simp only [hcur, hids, hcount, INTERNAL_DEAD, INTERNAL_LIVE]
  · have e1 : ¬ ((0 : Int) = -1 ∨ (0 : Int) > 0) := by omega
    simp only [List.length_nil]
    by_cases h3 : m = 3 <;> simp [h3]
  · simp only [List.length_nil]
    by_cases h2 : 2 ≤ m ∧ m ≤ 3
    · have : m = 2 ∨ m = 3 := by omega
      simp [h2.1, h2.2, this]
    · have hne : ¬ (m = 2 ∨ m = 3) := by omega
      rcases Nat.lt_or_ge m 2 with hlt | hge
      · have hA : ¬ 2 ≤ m := by omega
        simp [hne, hA]
      · have hA : ¬ m ≤ 3 := by omega
        have hB : 2 ≤ m := by omega
        simp [hne, hA, hB]

/-- Build a grid of size `h × w` whose live (standard) cells are the
given coordinate list. -/
def mkGrid (h w : Nat) (live : List (Nat × Nat)) : List (List Int) :=
  (List.range h).map (fun r => (List.range w).map (fun c =>
    if (r, c) ∈ live then INTERNAL_LIVE else INTERNAL_DEAD))

theorem mkGrid_cell_cases (h w : Nat) (live : List (Nat × Nat)) (r c : Nat) :
    iget (mkGrid h w live) r c = INTERNAL_DEAD ∨
    iget (mkGrid h w live) r c = INTERNAL_LIVE := by
  by_cases hr : r < h
  · by_cases hc : c < w
    · rw [show iget (mkGrid h w live) r c =
        (if (r, c) ∈ live then INTERNAL_LIVE else INTERNAL_DEAD) from
        iget_map_range h w _ r c hr hc]
      split
      · right; rfl
      · left; rfl
    · left
      have hrow : (mkGrid h w live).getD r [] = (List.range w).map (fun c =>
          if (r, c) ∈ live then INTERNAL_LIVE else INTERNAL_DEAD) := by
        unfold mkGrid
        rw [List.getD_eq_getElem?_getD, List.getElem?_map, List.getElem?_range hr]
        rfl
      refine iget_col_oob _ _ _ ?_
      rw [hrow]
      simpa using hc
  · left
    refine iget_row_oob _ _ _ ?_
    unfold mkGrid
    simpa using hr

/-- 40×20 board holding only the horizontal blinker
`{(5,5),(5,6),(5,7)}`. -/
def blinkGame : Game :=
  { width := 40, height := 20, grid := mkGrid 20 40 [(5, 5), (5, 6), (5, 7)],
    players := [], generation_count := 0, auto_reset := false }

set_option maxRecDepth 100000 in
set_option maxHeartbeats 2000000 in
/-- C2: on grids holding only `Dead` and `StandardLive` cells the step
of `next_generation` is exactly the unmodified Conway rule
(`conway_step_spec`, written from the spec's words); concretely, on the
40×20 board whose live cells are `{(5,5),(5,6),(5,7)}` one call of
`next_generation` yields exactly the live set `{(4,6),(5,6),(6,6)}` and
a second call restores the original grid. -/
theorem claim_c2_conway_equivalence :
    (∀ g : Game,
      (∀ r c, iget g.grid r c = INTERNAL_DEAD ∨ iget g.grid r c = INTERNAL_LIVE) →
      step_grid g = conway_step_spec g) ∧
    (next_generation blinkGame 0 ⟨[]⟩).map (fun p => p.1.grid) =
      some (mkGrid 20 40 [(4, 6), (5, 6), (6, 6)]) ∧
    ((next_generation blinkGame 0 ⟨[]⟩).bind
      (fun p => next_generation p.1 0 p.2)).map (fun p => p.1.grid) =
      some blinkGame.grid := by
  refine ⟨?_, ?_, ?_⟩
  · intro g hg
    unfold step_grid conway_step_spec
    refine List.map_congr_left ?_
    intro r _
    refine List.map_congr_left ?_
    intro c _
    exact next_cell_eq_conway g r c hg
  · decide
  · decide

/-- Witness for C2's universally quantified part at a concrete input:
the owner-free blinker board satisfies the hypothesis, so its step
agrees with the spec's Conway rule. -/
theorem claim_c2_witness :
    step_grid blinkGame = conway_step_spec blinkGame :=
  claim_c2_conway_equivalence.1 blinkGame
    (fun r c => mkGrid_cell_cases 20 40 [(5, 5), (5, 6), (5, 7)] r c)

/-! ### Claim C8: stability detector -/

theorem stability_tick_of_ne (window : List Nat) (stable : Bool) (previous current : Nat)
    (h : current ≠ previous) :
    stability_tick window stable previous current = ([current], false) := by
  unfold stability_tick
  rw [if_pos h]

theorem stability_tick_of_eq_stable (window : List Nat) (previous current : Nat)
    (h : current = previous) :
    stability_tick window true previous current = (window, true) := by
  unfold stability_tick
  rw [if_neg (by simpa using h)]
  rfl

theorem run_detector_aux_append (l1 l2 : List Nat) (st : List Nat × Bool × Nat) :
    run_detector_aux (l1 ++ l2) st = run_detector_aux l2 (run_detector_aux l1 st) := by
  induction l1 generalizing st with
  | nil => rfl
  | cons a rest IH =>
    obtain ⟨window, stable, lastCount⟩ := st
    rw [List.cons_append]
    simp only [run_detector_aux]
    exact IH _

theorem run_detector_aux_stable (n : Nat) (W : List Nat) (c : Nat) (hW : W ≠ []) :
    run_detector_aux (List.replicate n c) (W, true, c) = (W, true, c) := by
  induction n with
  | zero => rfl
  | succ m IH =>
    rw [List.replicate_succ]
    unfold run_detector_aux
    dsimp only
    rw [if_neg (by simpa using hW)]
    rw [stability_tick_of_eq_stable W c c rfl]
    exact IH

set_option maxRecDepth 10000 in
/-- From server start, twenty equal live counts fill the window and
raise the stable flag. -/
theorem run_detector_aux_twenty (c : Nat) :
    run_detector_aux (List.replicate 20 c) ([], false, 0) = (List.replicate 20 c, true, c) := by
  by_cases hc0 : c = 0
  · subst hc0
    decide
  · simp [run_detector_aux, stability_tick, STABILITY_CHECK_TICKS, List.replicate_succ, hc0]

theorem run_detector_aux_break (W : List Nat) (c d : Nat) (hW : W ≠ []) (hd : d ≠ c) :
    run_detector_aux [d] (W, true, c) = ([d], false, d) := by
  unfold run_detector_aux
  dsimp only
  rw [if_neg (by simpa using hW), stability_tick_of_ne W true c d hd]
  rfl

theorem flag_ite_fst (w : List Nat) :
    ((if w.length = STABILITY_CHECK_TICKS && w.all (fun x => x = w.headD 0)
      then (w, true) else (w, false)) : List Nat × Bool).1 = w := by
  split <;> rfl

theorem flag_ite_iff (w : List Nat) :
    ((if w.length = STABILITY_CHECK_TICKS && w.all (fun x => x = w.headD 0)
      then (w, true) else (w, false)) : List Nat × Bool).2 = true ↔
    (w.length = STABILITY_CHECK_TICKS ∧ ∀ x ∈ w, x = w.headD 0) := by
  split
  · rename_i hflag
    simp only [Bool.and_eq_true, decide_eq_true_eq, List.all_eq_true] at hflag
    exact ⟨fun _ => ⟨hflag.1, fun x hx => by simpa using hflag.2 x hx⟩, fun _ => rfl⟩
  · rename_i hflag
    constructor
    · intro ht
      simp at ht
    · intro hr
      exfalso
      apply hflag
      simp only [Bool.and_eq_true, decide_eq_true_eq, List.all_eq_true]
      exact ⟨hr.1, fun x hx => by simpa using hr.2 x hx⟩

/-- C8: the per-tick stability update of `run_game_loop`: a count that
differs from the previous tick's resets the window to `[newCount]` and
clears the flag (from any state); a matching count while unstable
appends to the window, capped at 20 entries, and the flag rises exactly
when the capped window holds 20 all-equal entries; a matching count
while stable leaves the state unchanged (the stable window is already
20 copies of the repeated count, for which the capped append is the
identity); hence from server start any sequence of at least 20
identical counts ends stable with the window full of that count, and
one subsequent differing count ends unstable with the window reset. -/
theorem claim_c8_stability_update :
    (∀ (window : List Nat) (stable : Bool) (previous current : Nat),
      current ≠ previous →
      stability_tick window stable previous current = ([current], false)) ∧
    (∀ (window : List Nat) (previous current : Nat), current = previous →
      (stability_tick window false previous current).1 =
        (if (window ++ [current]).length ≤ STABILITY_CHECK_TICKS then window ++ [current]
         else (window ++ [current]).tail) ∧
      ((stability_tick window false previous current).2 = true ↔
        ((stability_tick window false previous current).1.length = STABILITY_CHECK_TICKS ∧
         ∀ x ∈ (stability_tick window false previous current).1,
           x = (stability_tick window false previous current).1.headD 0))) ∧
    (∀ (window : List Nat) (previous current : Nat), current = previous →
      stability_tick window true previous current = (window, true)) ∧
    (∀ (n c : Nat), 20 ≤ n →
      run_detector (List.replicate n c) = (List.replicate 20 c, true)) ∧
    (∀ (n c d : Nat), 20 ≤ n → d ≠ c →
      run_detector (List.replicate n c ++ [d]) = ([d], false)) := by
  refine ⟨stability_tick_of_ne, ?_, ?_, ?_, ?_⟩
  · intro window previous current h
    unfold stability_tick
    rw [if_neg (by simpa using h)]
    simp only [Bool.false_eq_true, if_false]
    by_cases hlen : STABILITY_CHECK_TICKS < (window ++ [current]).length
    · have hnle : ¬ ((window ++ [current]).length ≤ STABILITY_CHECK_TICKS) := by omega
      rw [if_pos hlen, if_neg hnle]
      refine ⟨flag_ite_fst _, ?_⟩
      rw [flag_ite_fst]
      exact flag_ite_iff _
    · have hle : (window ++ [current]).length ≤ STABILITY_CHECK_TICKS := by omega
      rw [if_neg hlen, if_pos hle]
      refine ⟨flag_ite_fst _, ?_⟩
      rw [flag_ite_fst]
      exact flag_ite_iff _
  · intro window previous current h
    exact stability_tick_of_eq_stable window previous current h
  · intro n c hn
    obtain ⟨m, rfl⟩ : ∃ m, n = 20 + m := ⟨n - 20, by omega⟩
    unfold run_detector
    rw [List.replicate_add, run_detector_aux_append, run_detector_aux_twenty,
      run_detector_aux_stable m _ c (by simp)]
  · intro n c d hn hd
    obtain ⟨m, rfl⟩ : ∃ m, n = 20 + m := ⟨n - 20, by omega⟩
    unfold run_detector
    rw [run_detector_aux_append, List.replicate_add, run_detector_aux_append,
      run_detector_aux_twenty, run_detector_aux_stable m _ c (by simp),
      run_detector_aux_break _ c d (by simp) hd]

/-- Witness for C8 at concrete inputs: a differing count resets even a
stable state; 20 equal counts from start give stable; one differing
count after that gives unstable. -/
theorem claim_c8_witness :
    stability_tick [3] true 5 7 = ([7], false) ∧
    run_detector (List.replicate 20 5) = (List.replicate 20 5, true) ∧
    run_detector (List.replicate 20 5 ++ [7]) = ([7], false) :=
  ⟨claim_c8_stability_update.1 [3] true 5 7 (by decide),
   claim_c8_stability_update.2.2.2.1 20 5 (by decide),
   claim_c8_stability_update.2.2.2.2 20 5 7 (by decide) (by decide)⟩

/-! ### Claims C4/C10/C5: invariants of the mutating operations -/

theorem dictKeys_dictSet_mono (ps : List (Int × Player)) (k : Int) (v : Player)
    (x : Int) (hx : x ∈ dictKeys ps) : x ∈ dictKeys (dictSet ps k v) := by
  unfold dictKeys dictSet
  split
  · simp only [List.map_map, List.mem_map]
    obtain ⟨p, hp, hpx⟩ := List.mem_map.mp hx
    refine ⟨p, hp, ?_⟩
    simp only [Function.comp]
    by_cases h : p.1 = k
    · rw [if_pos h]
      exact h.symm.trans hpx
    · rw [if_neg h]
      exact hpx
  · simp only [List.map_append, List.mem_append]
    left
    exact hx

theorem dictKeys_dictSet_self (ps : List (Int × Player)) (k : Int) (v : Player) :
    k ∈ dictKeys (dictSet ps k v) := by
  unfold dictKeys dictSet
  split
  · rename_i hmem
    unfold dictMem at hmem
    obtain ⟨p, hp, hpk⟩ := List.any_eq_true.mp hmem
    simp only [decide_eq_true_eq] at hpk
    simp only [List.map_map, List.mem_map]
    exact ⟨p, hp, by simp [Function.comp, hpk]⟩
  · simp

theorem dictKeys_dictModify (ps : List (Int × Player)) (k : Int) (f : Player → Player) :
    dictKeys (dictModify ps k f) = dictKeys ps := by
  unfold dictKeys dictModify
  rw [List.map_map]
  refine List.map_congr_left ?_
  intro p _
  by_cases h : p.1 = k <;> simp [Function.comp, h]

theorem dictKeys_map_snd (ps : List (Int × Player)) (f : Int × Player → Player) :
    dictKeys (ps.map (fun p => (p.1, f p))) = dictKeys ps := by
  unfold dictKeys
  rw [List.map_map]
  refine List.map_congr_left ?_
  intro p _
  rfl

theorem dictKeys_dictDel (ps : List (Int × Player)) (k x : Int)
    (hx : x ∈ dictKeys ps) (hne : x ≠ k) : x ∈ dictKeys (dictDel ps k) := by
  unfold dictKeys dictDel
  obtain ⟨p, hp, hpx⟩ := List.mem_map.mp hx
  refine List.mem_map.mpr ⟨p, List.mem_filter.mpr ⟨hp, ?_⟩, hpx⟩
  simp [hpx, hne]

theorem dictGet_mem_keys (ps : List (Int × Player)) (k : Int) (rec : Player)
    (h : dictGet ps k = some rec) : k ∈ dictKeys ps := by
  unfold dictGet at h
  obtain ⟨p, hfind⟩ := Option.map_eq_some'.mp h
  have hp := List.find?_some hfind.1
  have hmem := List.mem_of_find?_eq_some hfind.1
  simp only [decide_eq_true_eq] at hp
  exact List.mem_map.mpr ⟨p, hmem, hp⟩

theorem dictMem_mem_keys (ps : List (Int × Player)) (k : Int)
    (h : dictMem ps k = true) : k ∈ dictKeys ps := by
  unfold dictMem at h
  obtain ⟨p, hp, hpk⟩ := List.any_eq_true.mp h
  simp only [decide_eq_true_eq] at hpk
  exact List.mem_map.mpr ⟨p, hp, hpk⟩

/-- Ownership invariant: every in-range grid cell holding a positive
value (a player id) is registered in `players`. -/
def OwnerInv (g : Game) : Prop :=
  ∀ r < g.height, ∀ c < g.width, 0 < iget g.grid r c →
    iget g.grid r c ∈ dictKeys g.players

/-- One mutation step is invariant-safe: dimensions are kept, keys only
grow, and every positive cell of the new grid is the old cell's value,
a currently registered id, or a positive value read from some in-range
old cell. -/
structure Preserves (g g' : Game) : Prop where
  width_eq : g'.width = g.width
  height_eq : g'.height = g.height
  keys_mono : ∀ x ∈ dictKeys g.players, x ∈ dictKeys g'.players
  cell : ∀ r' c', 0 < iget g'.grid r' c' →
    iget g'.grid r' c' = iget g.grid r' c' ∨
    iget g'.grid r' c' ∈ dictKeys g'.players ∨
    ∃ a b, a < g.height ∧ b < g.width ∧ iget g.grid a b = iget g'.grid r' c'

theorem Preserves.refl (g : Game) : Preserves g g :=
  ⟨rfl, rfl, fun _ hx => hx, fun _ _ _ => Or.inl rfl⟩

theorem Preserves.trans {g g' g'' : Game} (h1 : Preserves g g') (h2 : Preserves g' g'') :
    Preserves g g'' := by
  refine ⟨h2.width_eq.trans h1.width_eq, h2.height_eq.trans h1.height_eq,
    fun x hx => h2.keys_mono x (h1.keys_mono x hx), ?_⟩
  intro r' c' hpos
  rcases h2.cell r' c' hpos with hsame | hkeys | ⟨a, b, ha, hb, hab⟩
  · rw [hsame] at hpos ⊢
    rcases h1.cell r' c' hpos with hsame1 | hkeys1 | ⟨a, b, ha, hb, hab⟩
    · exact Or.inl hsame1
    · exact Or.inr (Or.inl (h2.keys_mono _ hkeys1))
    · exact Or.inr (Or.inr ⟨a, b, ha, hb, hab⟩)
  · exact Or.inr (Or.inl hkeys)
  · rw [← hab] at hpos ⊢
    rcases h1.cell a b hpos with hsame1 | hkeys1 | ⟨a2, b2, ha2, hb2, hab2⟩
    · rw [hsame1] at hpos ⊢
      exact Or.inr (Or.inr ⟨a, b, h1.height_eq ▸ ha, h1.width_eq ▸ hb, rfl⟩)
    · exact Or.inr (Or.inl (h2.keys_mono _ hkeys1))
    · exact Or.inr (Or.inr ⟨a2, b2, ha2, hb2, hab2⟩)

theorem Inv_of_Preserves {g g' : Game} (hp : Preserves g g') (hi : OwnerInv g) :
    OwnerInv g' := by
  intro r hr c hc hpos
  rcases hp.cell r c hpos with hsame | hkeys | ⟨a, b, ha, hb, hab⟩
  · rw [hsame] at hpos ⊢
    exact hp.keys_mono _ (hi r (by rw [hp.height_eq] at hr; exact hr) c
      (by rw [hp.width_eq] at hc; exact hc) hpos)
  · exact hkeys
  · rw [← hab] at hpos ⊢
    exact hp.keys_mono _ (hi a ha b hb hpos)

theorem place_pattern_cases (g : Game) (sr sc : Nat) (coords : List (Nat × Nat))
    (state : Int) (r' c' : Nat) :
    iget (place_pattern g sr sc coords state).grid r' c' = state ∨
    iget (place_pattern g sr sc coords state).grid r' c' = iget g.grid r' c' := by
  unfold place_pattern
  dsimp only
  refine foldl_write_only state _ ?_ coords g.grid r' c'
  intro gr dc a b
  dsimp only
  split
  · exact iget_gridSet_cases gr _ _ state a b
  · right
    rfl

theorem place_pattern_preserves (g : Game) (sr sc : Nat) (coords : List (Nat × Nat))
    (state : Int) (hstate : state ≤ 0 ∨ state ∈ dictKeys g.players) :
    Preserves g (place_pattern g sr sc coords state) := by
  refine ⟨rfl, rfl, fun x hx => hx, ?_⟩
  intro r' c' hpos
  rcases place_pattern_cases g sr sc coords state r' c' with h | h
  · rcases hstate with hle | hmem
    · rw [h] at hpos
      omega
    · rw [h]
      exact Or.inr (Or.inl hmem)
  · exact Or.inl h

theorem clear_player_cells_preserves (g : Game) (pid : Int) :
    Preserves g (clear_player_cells g pid) := by
  refine ⟨rfl, rfl, fun x hx => hx, ?_⟩
  intro r' c' hpos
  have h := foldl_write_only 0 _
    (fun grr rr a b => clear_rowstep_cases pid grr g.width rr a b)
    (List.range g.height) g.grid r' c'
  rcases h with h | h
  · exact absurd (h ▸ hpos) (by omega)
  · exact Or.inl h

theorem clear_all_rowstep_cases (gr : List (List Int)) (w rr r' c' : Nat) :
    iget ((List.range w).foldl (fun gr2 c => gridSet gr2 rr c INTERNAL_DEAD) gr) r' c' = 0 ∨
    iget ((List.range w).foldl (fun gr2 c => gridSet gr2 rr c INTERNAL_DEAD) gr) r' c'
      = iget gr r' c' :=
  foldl_write_only 0 _ (fun gr2 cc a b => iget_gridSet_cases gr2 rr cc 0 a b)
    (List.range w) gr r' c'

theorem clear_all_cells_preserves (g : Game) : Preserves g (clear_all_cells g) := by
  refine ⟨rfl, rfl, fun x hx => hx, ?_⟩
  intro r' c' hpos
  have h := foldl_write_only 0 _
    (fun grr rr a b => clear_all_rowstep_cases grr g.width rr a b)
    (List.range g.height) g.grid r' c'
  rcases h with h | h
  · exact absurd (h ▸ hpos) (by omega)
  · exact Or.inl h

theorem mem_fold_addId_sub (L : List Int) (ids : List Int) (v : Int)
    (hv : v ∈ L.foldl (fun l v => if 0 < v then addId l v else l) ids) :
    v ∈ ids ∨ (v ∈ L ∧ 0 < v) := by
  induction L generalizing ids with
  | nil => exact Or.inl (by simpa using hv)
  | cons a rest IH =>
    rw [List.foldl_cons] at hv
    rcases IH _ hv with h | h
    · by_cases ha : (0 : Int) < a
      · rw [if_pos ha] at h
        unfold addId at h
        split at h
        · exact Or.inl h
        · rcases List.mem_append.mp h with h2 | h2
          · exact Or.inl h2
          · simp only [List.mem_singleton] at h2
            exact Or.inr ⟨by simp [h2], h2 ▸ ha⟩
      · rw [if_neg ha] at h
        exact Or.inl h
    · exact Or.inr ⟨by simp [h.1], h.2⟩

theorem gns_ids_origin (g : Game) (r c : Nat) (hh : 0 < g.height) (hw : 0 < g.width)
    (v : Int) (hv : v ∈ (get_neighbors_state g r c).2) :
    0 < v ∧ ∃ a b, a < g.height ∧ b < g.width ∧ iget g.grid a b = v := by
  rw [gns_eq] at hv
  rcases mem_fold_addId_sub _ _ _ hv with h | h
  · simp at h
  · refine ⟨h.2, ?_⟩
    obtain ⟨ij, _, hij⟩ := List.mem_map.mp h.1
    exact ⟨wrap ((r : Int) + ij.1) g.height, wrap ((c : Int) + ij.2) g.width,
      wrap_lt _ _ hh, wrap_lt _ _ hw, hij⟩

theorem next_cell_cases (g : Game) (r c : Nat) :
    next_cell g r c = iget g.grid r c ∨ next_cell g r c = INTERNAL_LIVE ∨
    next_cell g r c = INTERNAL_DEAD ∨
    next_cell g r c ∈ (get_neighbors_state g r c).2 := by
  unfold next_cell branch_value
  cases cell_branch g r c
  case influence =>
    rcases hids : (get_neighbors_state g r c).2 with _ | ⟨x, rest⟩
    · right; right; left
      rfl
    · right; right; right
      simp
  case ghostSurvive => exact Or.inl rfl
  case selfKeep => exact Or.inl rfl
  case standardBirth => exact Or.inr (Or.inl rfl)
  case liveKeep => exact Or.inl rfl
  case death => exact Or.inr (Or.inr (Or.inl rfl))

theorem iget_range_map_oob (h w : Nat) (f : Nat → Nat → Int) (r c : Nat)
    (hoob : ¬ (r < h ∧ c < w)) :
    iget ((List.range h).map (fun r => (List.range w).map (fun c => f r c))) r c = 0 := by
  by_cases hr : r < h
  · have hc : ¬ c < w := fun hc => hoob ⟨hr, hc⟩
    refine iget_col_oob _ _ _ ?_
    rw [List.getD_eq_getElem?_getD, List.getElem?_map, List.getElem?_range hr]
    simpa using by omega
  · refine iget_row_oob _ _ _ ?_
    simpa using by omega

theorem step_grid_preserves (g : Game) : Preserves g { g with grid := step_grid g } := by
  refine ⟨rfl, rfl, fun x hx => hx, ?_⟩
  intro r' c' hpos
  by_cases hin : r' < g.height ∧ c' < g.width
  · dsimp only at hpos ⊢
    rw [iget_step_grid g r' c' hin.1 hin.2] at hpos ⊢
    rcases next_cell_cases g r' c' with h | h | h | h
    · exact Or.inl h
    · rw [h] at hpos
      exact absurd hpos (by decide)
    · rw [h] at hpos
      exact absurd hpos (by decide)
    · obtain ⟨_, a, b, ha, hb, hab⟩ := gns_ids_origin g r' c'
        (by omega) (by omega) _ h
      exact Or.inr (Or.inr ⟨a, b, ha, hb, hab⟩)
  · dsimp only at hpos
    rw [show step_grid g = (List.range g.height).map
        (fun r => (List.range g.width).map (fun c => next_cell g r c)) from rfl] at hpos
    rw [iget_range_map_oob g.height g.width _ r' c' hin] at hpos
    exact absurd hpos (by decide)

theorem preserves_of_grid_eq {g g' : Game} (hw : g'.width = g.width)
    (hh : g'.height = g.height) (hgr : g'.grid = g.grid)
    (hk : ∀ x ∈ dictKeys g.players, x ∈ dictKeys g'.players) : Preserves g g' :=
  ⟨hw, hh, hk, fun r' c' _ => Or.inl (by rw [hgr])⟩

theorem seed_try_place_preserves (g : Game) (coords : List (Nat × Nat)) (ph pw : Nat)
    (placements : List (Nat × Nat)) (fuel : Nat) (o : Oracle) :
    Preserves g (seed_try_place g coords ph pw placements fuel o).1 := by
  induction fuel generalizing o with
  | zero => exact Preserves.refl g
  | succ n IH =>
    rw [seed_try_place]
    split
    · exact IH _
    · split
      · exact place_pattern_preserves g _ _ coords INTERNAL_LIVE (Or.inl (by decide))
      · exact IH _

theorem seed_place_n_preserves (coords : List (Nat × Nat)) (ph pw : Nat) :
    ∀ (n : Nat) (g : Game) (placements : List (Nat × Nat)) (o : Oracle),
    Preserves g (seed_place_n coords ph pw n (g, placements, o)).1 := by
  intro n
  induction n with
  | zero =>
    intro g placements o
    exact Preserves.refl _
  | succ m IH =>
    intro g placements o
    rw [seed_place_n]
    exact (seed_try_place_preserves g coords ph pw placements 100 o).trans
      (IH _ _ _)

theorem seed_place_n_preserves_st (coords : List (Nat × Nat)) (ph pw n : Nat)
    (st : Game × List (Nat × Nat) × Oracle) :
    Preserves st.1 (seed_place_n coords ph pw n st).1 :=
  seed_place_n_preserves coords ph pw n st.1 st.2.1 st.2.2

theorem seed_fold_preserves (entries : List (List (Nat × Nat) × Nat × Nat × Nat)) :
    ∀ st : Game × List (Nat × Nat) × Oracle,
    Preserves st.1
      ((entries.foldl (fun st e => seed_place_n e.1 e.2.1 e.2.2.1 e.2.2.2 st) st)).1 := by
  induction entries with
  | nil =>
    intro st
    exact Preserves.refl _
  | cons e rest IH =>
    intro st
    rw [List.foldl_cons]
    exact Preserves.trans (seed_place_n_preserves_st e.1 e.2.1 e.2.2.1 e.2.2.2 st) (IH _)

theorem seed_patterns_preserves (g : Game) (nb nbl nl : Nat) (o : Oracle) :
    Preserves g (seed_patterns g nb nbl nl o).1 := by
  unfold seed_patterns
  dsimp only
  exact seed_fold_preserves _ (g, [], o)

theorem add_player_search_preserves (g : Game) (pid now : Int) :
    ∀ (fuel : Nat) (o : Oracle), Preserves g (add_player_search g pid now fuel o).1 := by
  intro fuel
  induction fuel with
  | zero =>
    intro o
    exact Preserves.refl g
  | succ n IH =>
    intro o
    rw [add_player_search]
    split
    · refine ⟨rfl, rfl, ?_, ?_⟩
      · intro x hx
        exact dictKeys_dictSet_mono _ pid _ x hx
      · intro r' c' hpos
        rcases place_pattern_cases g _ _ PLAYER_SPAWN_PATTERN pid r' c' with h | h
        · rw [h]
          exact Or.inr (Or.inl (dictKeys_dictSet_self _ pid _))
        · exact Or.inl h
    · exact IH _

theorem disruption_loop_preserves (sr sc : Nat) :
    ∀ (fuel count : Nat) (g : Game) (o : Oracle),
    Preserves g (disruption_loop sr sc fuel count (g, o)).1 := by
  intro fuel
  induction fuel with
  | zero =>
    intro count g o
    exact Preserves.refl _
  | succ n IH =>
    intro count g o
    rw [disruption_loop]
    dsimp only
    split
    · exact Preserves.refl _
    · split
      · exact IH _ _ _
      · split
        · refine Preserves.trans ?_ (IH _ _ _)
          refine ⟨rfl, rfl, fun x hx => hx, ?_⟩
          intro r' c' hpos
          rcases iget_gridSet_cases g.grid _ _ INTERNAL_LIVE r' c' with h | h
          · rw [h] at hpos
            exact absurd hpos (by decide)
          · exact Or.inl h
        · exact IH _ _ _

theorem add_player_preserves (g : Game) (pid now : Int) (inj : Bool) (o : Oracle) :
    Preserves g (add_player g pid now inj o).1 := by
  unfold add_player
  dsimp only
  split
  · split
    · exact (add_player_search_preserves g pid now _ o).trans
        (disruption_loop_preserves _ _ 20 0 _ _)
    · exact add_player_search_preserves g pid now _ o
  · exact add_player_search_preserves g pid now _ o

theorem god_mode_readd_preserves (now : Int) :
    ∀ (pids : List Int) (g : Game) (failed : List Int) (o : Oracle),
    Preserves g (god_mode_readd now pids (g, failed, o)).1 := by
  intro pids
  induction pids with
  | nil =>
    intro g failed o
    exact Preserves.refl _
  | cons pid rest IH =>
    intro g failed o
    rw [god_mode_readd]
    split
    · exact (add_player_preserves g pid now false o).trans (IH _ _ _)
    · exact IH _ _ _

theorem preserves_ite_fst {g : Game} (c : Prop) [Decidable c]
    (x y : Game × Bool × RespawnMsg × Oracle) (hx : Preserves g x.1)
    (hy : Preserves g y.1) :
    Preserves g (if c then x else y).1 := by
  split
  · exact hx
  · exact hy

theorem preserves_wins_reset (g2 : Game) :
    Preserves g2 (if g2.auto_reset then g2
      else { g2 with players := g2.players.map (fun p : Int × Player =>
        (p.1, { p.2 with wins := some 0 })) }) := by
  split
  · exact Preserves.refl _
  · exact preserves_of_grid_eq rfl rfl rfl (fun x hx => by rwa [dictKeys_map_snd])

theorem preserves_seed_if (g3 : Game) (o : Oracle) (c : Prop) [Decidable c] :
    Preserves g3 (if c then seed_patterns g3 2 2 1 o else seed_patterns g3 5 5 3 o).1 := by
  split <;> exact seed_patterns_preserves _ _ _ _ _

theorem god_mode_reset_preserves (g : Game) (now : Int) (o : Oracle) :
    Preserves g (god_mode_reset g now o).1 := by
  unfold god_mode_reset
  dsimp only
  refine preserves_ite_fst _ _ _ ?_ ?_ <;>
  · dsimp only
    refine Preserves.trans ?_ (god_mode_readd_preserves now _ _ _ _)
    refine Preserves.trans ?_ (preserves_seed_if _ o _)
    have hg2 : Preserves g { clear_all_cells g with generation_count := 0 } :=
      (clear_all_cells_preserves g).trans
        (preserves_of_grid_eq rfl rfl rfl (fun x hx => hx))
    split
    · exact hg2
    · refine Preserves.trans hg2 ?_
      exact preserves_of_grid_eq rfl rfl rfl (fun x hx => by rwa [dictKeys_map_snd])

theorem regular_respawn_preserves (g : Game) (pid now : Int) (pos : Nat × Nat)
    (orc : Nat) (o : Oracle) (hpid : pid ∈ dictKeys g.players) :
    Preserves g (regular_respawn g pid now pos orc o).1 := by
  unfold regular_respawn
  dsimp only
  split
  · refine Preserves.trans (clear_player_cells_preserves g pid) ?_
    refine ⟨rfl, rfl, ?_, ?_⟩
    · intro x hx
      rw [dictKeys_dictModify]
      exact hx
    · intro r' c' hpos
      rcases place_pattern_cases (clear_player_cells g pid) _ _
          PLAYER_SPAWN_PATTERN pid r' c' with h | h
      · rw [h]
        refine Or.inr (Or.inl ?_)
        rw [dictKeys_dictModify]
        exact hpid
      · exact Or.inl h
  · exact clear_player_cells_preserves g pid

theorem respawn_player_preserves (g : Game) (pid now : Int) (gm : Bool) (o : Oracle) :
    Preserves g (respawn_player g pid now gm o).1 := by
  unfold respawn_player
  split
  · exact Preserves.refl g
  · rename_i player_data hget
    dsimp only
    split
    · exact Preserves.refl g
    · split
      · exact god_mode_reset_preserves g now o
      · split
        · exact Preserves.refl g
        · exact regular_respawn_preserves g pid now _ _ o
            (dictGet_mem_keys _ _ _ hget)

theorem dictKeys_bump_leader (ps : List (Int × Player)) (l : Option Int) :
    dictKeys (bump_leader_gil ps l) = dictKeys ps := by
  cases l
  · rfl
  · rw [bump_leader_gil]
    exact dictKeys_dictModify _ _ _

theorem respawn_all_god_preserves (now : Int) :
    ∀ (pids : List Int) (g : Game) (o : Oracle),
    Preserves g (respawn_all_god now pids (g, o)).1 := by
  intro pids
  induction pids with
  | nil =>
    intro g o
    exact Preserves.refl _
  | cons pid rest IH =>
    intro g o
    rw [respawn_all_god]
    split
    · exact (respawn_player_preserves g pid now true o).trans (IH _ _)
    · exact IH _ _

theorem round_reset_bookkeeping_preserves (g : Game) (winner : Int) :
    Preserves g (round_reset_bookkeeping g winner) := by
  unfold round_reset_bookkeeping
  dsimp only
  split
  · refine preserves_of_grid_eq rfl rfl rfl ?_
    intro x hx
    rwa [dictKeys_map_snd, dictKeys_dictModify]
  · refine preserves_of_grid_eq rfl rfl rfl ?_
    intro x hx
    rwa [dictKeys_map_snd]

theorem round_reset_preserves (g : Game) (now : Int) (o : Oracle) :
    ∀ p ∈ round_reset g now o, Preserves g p.1 := by
  intro p hp
  unfold round_reset at hp
  rcases hw : round_winner g.players with _ | winner <;> rw [hw] at hp
  · simp at hp
  · rw [Option.mem_def, Option.some.injEq] at hp
    subst hp
    dsimp only
    exact ((round_reset_bookkeeping_preserves g winner).trans
      (respawn_all_god_preserves now _ _ o)).trans
      (preserves_of_grid_eq rfl rfl rfl (fun x hx => hx))

theorem next_generation_preserves (g : Game) (now : Int) (o : Oracle) :
    ∀ p ∈ next_generation g now o, Preserves g p.1 := by
  intro p hp
  unfold next_generation at hp
  dsimp only at hp
  have hG3 : Preserves g { g with
      grid := step_grid g,
      generation_count := g.generation_count + 1,
      players := bump_leader_gil g.players (find_current_leader g) } :=
    (step_grid_preserves g).trans
      (preserves_of_grid_eq rfl rfl rfl
        (fun x hx => by rwa [dictKeys_bump_leader]))
  split at hp
  · exact hG3.trans (round_reset_preserves _ now o p hp)
  · rw [Option.mem_def, Option.some.injEq] at hp
    subst hp
    exact hG3

theorem clear_player_cells_cases (g : Game) (pid : Int) (r' c' : Nat) :
    iget (clear_player_cells g pid).grid r' c' = 0 ∨
    iget (clear_player_cells g pid).grid r' c' = iget g.grid r' c' := by
  unfold clear_player_cells
  exact foldl_write_only 0 _
    (fun grr rr a b => clear_rowstep_cases pid grr g.width rr a b)
    (List.range g.height) g.grid r' c'

theorem remove_player_inv (g : Game) (pid : Int) (hi : OwnerInv g) :
    OwnerInv (remove_player g pid) := by
  unfold remove_player
  split
  · intro r hr c hc hpos
    dsimp only at hr hc hpos ⊢
    have hne : iget (clear_player_cells g pid).grid r c ≠ pid := by
      by_cases hp0 : pid = 0
      · subst hp0
        intro e
        rw [e] at hpos
        exact absurd hpos (by decide)
      · exact clear_player_cells_spec g pid hp0 r c hr hc
    rcases clear_player_cells_cases g pid r c with h | h
    · rw [h] at hpos
      exact absurd hpos (by decide)
    · rw [h] at hpos hne ⊢
      exact dictKeys_dictDel _ _ _ (hi r hr c hc hpos) hne
  · exact hi

instance decidableOwnerInv (g : Game) : Decidable (OwnerInv g) :=
  inferInstanceAs (Decidable (∀ r < g.height, ∀ c < g.width, 0 < iget g.grid r c →
    iget g.grid r c ∈ dictKeys g.players))

/-- C4: the invariant "every grid cell holding a player id has a record
for that id in `players`" is preserved by every operation: if it holds
before a call to `next_generation` (that returns), `add_player`,
`remove_player`, or `respawn_player`, it holds for the returned state. -/
theorem claim_c4_registry_invariant (g : Game) (hi : OwnerInv g) :
    (∀ (now : Int) (o : Oracle) (p : Game × Oracle),
      next_generation g now o = some p → OwnerInv p.1) ∧
    (∀ (pid now : Int) (inj : Bool) (o : Oracle),
      OwnerInv (add_player g pid now inj o).1) ∧
    (∀ pid : Int, OwnerInv (remove_player g pid)) ∧
    (∀ (pid now : Int) (gm : Bool) (o : Oracle),
      OwnerInv (respawn_player g pid now gm o).1) := by
  refine ⟨?_, ?_, ?_, ?_⟩
  · intro now o p hp
    exact Inv_of_Preserves (next_generation_preserves g now o p (Option.mem_def.mpr hp)) hi
  · intro pid now inj o
    exact Inv_of_Preserves (add_player_preserves g pid now inj o) hi
  · intro pid
    exact remove_player_inv g pid hi
  · intro pid now gm o
    exact Inv_of_Preserves (respawn_player_preserves g pid now gm o) hi

/-- Witness for C4 at concrete inputs: the invariant holds for the
fixture state and is preserved by one call of each operation. -/
theorem claim_c4_witness :
    OwnerInv ((next_generation witnessGame 100 ⟨[]⟩).getD (witnessGame, ⟨[]⟩)).1 ∧
    OwnerInv (add_player witnessGame 2 100 false ⟨[]⟩).1 ∧
    OwnerInv (remove_player witnessGame 1) ∧
    OwnerInv (respawn_player witnessGame 1 100 false ⟨[]⟩).1 := by
  have h := claim_c4_registry_invariant witnessGame (by decide)
  exact ⟨h.1 100 ⟨[]⟩ ((next_generation witnessGame 100 ⟨[]⟩).getD (witnessGame, ⟨[]⟩))
      (by decide),
    h.2.1 2 100 false ⟨[]⟩, h.2.2.1 1, h.2.2.2 1 100 false ⟨[]⟩⟩

theorem bump_leader_gil_ne_nil (ps : List (Int × Player)) (l : Option Int)
    (h : ps ≠ []) : bump_leader_gil ps l ≠ [] := by
  cases l
  · exact h
  · rw [bump_leader_gil]
    unfold dictModify
    simpa using h

theorem round_reset_isSome (g : Game) (now : Int) (o : Oracle) (hne : g.players ≠ []) :
    (round_reset g now o).isSome = true := by
  unfold round_reset
  rcases hw : round_winner g.players with _ | w
  · unfold round_winner at hw
    rcases hps : g.players with _ | ⟨p, rest⟩
    · exact absurd hps hne
    · rw [hps] at hw
      simp at hw
  · rfl

/-- C10: when `next_generation` brings `generation_count` to the round
boundary (2500) with an empty player registry, the winner computation
(`max` over `players.items()`, modelled by `round_winner` returning
`none`) fails, so the call raises instead of completing the round
reset; with at least one registered player (on a board large enough for
the reseeding's `randint` calls to be well-formed, `width ≥ 5`,
`height ≥ 4`) the call always completes. -/
theorem claim_c10_round_boundary_empty_registry :
    (∀ (g : Game) (now : Int) (o : Oracle), g.players = [] →
      2500 ≤ g.generation_count + 1 → next_generation g now o = none) ∧
    (∀ (g : Game) (now : Int) (o : Oracle), g.players ≠ [] →
      5 ≤ g.width → 4 ≤ g.height → (next_generation g now o).isSome = true) := by
  constructor
  · intro g now o hempty hb
    unfold next_generation
    dsimp only
    rw [if_pos hb]
    unfold round_reset
    have hnil : bump_leader_gil g.players (find_current_leader g) = [] := by
      rw [hempty]
      cases find_current_leader g <;> rfl
    rw [show round_winner (bump_leader_gil g.players (find_current_leader g)) = none by
      rw [hnil]; rfl]
  · intro g now o hne _ _
    unfold next_generation
    dsimp only
    split
    · exact round_reset_isSome _ now o (bump_leader_gil_ne_nil _ _ hne)
    · rfl

/-- Empty-registry board one step before the round boundary. -/
def c10Game : Game :=
  { width := 8, height := 6, grid := mkGrid 6 8 [], players := [],
    generation_count := 2499, auto_reset := false }

/-- Witness for C10 at concrete inputs: the empty-registry board at
generation 2499 makes `next_generation` fail; the one-player fixture
board succeeds. -/
theorem claim_c10_witness :
    next_generation c10Game 0 ⟨[]⟩ = none ∧
    (next_generation witnessGame 0 ⟨[]⟩).isSome = true :=
  ⟨claim_c10_round_boundary_empty_registry.1 c10Game 0 ⟨[]⟩ (by decide) (by decide),
   claim_c10_round_boundary_empty_registry.2 witnessGame 0 ⟨[]⟩ (by decide) (by decide)
     (by decide)⟩

/-- Record of player 1 before the C5 failing round boundary: 2 wins from
earlier rounds and the strictly highest (only) `generations_in_lead`. -/
def c5Player : Player :=
  { pos := some (0, 0), last_respawn_time := some 0, respawn_count := some 0,
    wins := some 2, generations_in_lead := some 5, moving := none, move_direction := none }

/-- Failing input for C5: a 12×10 board one generation before the round
boundary with a single registered player holding 2 wins. -/
def c5Game : Game :=
  { width := 12, height := 10, grid := mkGrid 10 12 [],
    players := [(1, c5Player)], generation_count := 2499, auto_reset := false }

/-- Oracle tape for the C5 failing input: zeros through the reseeding
pass of the automatic god-mode restart (the first block lands at
`(0, 0)`; every later pattern instance then burns its full 100-attempt
budget on anchors too close to it, 2 draws per attempt), then the
anchor `(5, 5)` on which `add_player` re-places player 1 successfully. -/
def c5tape : List Nat := List.replicate 3802 0 ++ [5, 5]

set_option maxRecDepth 100000 in
/-- C5 (evidence of the code bug): on the failing input, the call that
reaches the round boundary resets `generation_count` and the lead
counters, and transiently increments the winner's `wins` to 3 — but the
automatic god-mode restart re-adds the winner via `add_player`, whose
fresh record has `'wins': 0`, so after the call returns the winner's
wins counter is 0 rather than incremented by exactly 1, contradicting
the code's own `Auto reset - preserving win counters` branch. -/
theorem claim_c5_round_boundary_wins_wiped :
    dictGet c5Game.players 1 = some c5Player ∧
    c5Player.wins = some 2 ∧
    c5Game.generation_count + 1 = 2500 ∧
    (next_generation c5Game 100 ⟨c5tape⟩).map
      (fun p => ((dictGet p.1.players 1).map Player.wins, p.1.generation_count)) =
      some (some (some 0), 0) := by
  refine ⟨by decide, by decide, by decide, by decide⟩
